import Mathlib

/-!
# decerver: capability surface and runtime calls

A shallow embedding of `ate/jsbindings.go` (the host functions bound into every
script runtime and the event bootstrap script) and of
`runtimemanager/runtimemanager.go` (the registry of runtimes, the methods of a
runtime and the event subscriptions).

Conventions of the embedding.

* A Go `string` handed over by the interpreter is text; it is a `String` here, and
  `[]byte(s)` is its UTF-8 encoding (`goBytes`).  A `[]byte` is a `List Nat` whose
  elements are below 256.
* `*big.Int` is `Int`.
* `call.Argument(i).ToString()` is an `Option String`: `none` is a failed conversion
  (the `err0`/`err1` of the source), `some s` the converted string.
* A bound host function returns an `Outcome`: the `otto.Value` it hands back to the
  script, or `fault` when the Go body panics.
* Console output (`fmt.Println`, `fmt.Printf`) is not part of the embedding.
-/

namespace Ate

/-! ## Values handed back to the script -/

/-- The `otto.Value`s the helpers produce. -/
inductive Value where
  | undefined : Value
  | NaN : Value
  | string (s : String) : Value
  | boolean (b : Bool) : Value
  deriving DecidableEq, Repr

/-- Result of running a bound Go function: a returned value, or a Go run-time panic. -/
inductive Outcome where
  | ret (v : Value) : Outcome
  | fault : Outcome
  deriving DecidableEq, Repr

/-! ## `[]byte(s)` -/

/-- UTF-8 encoding of one code point, as Go stores it in a `string`. -/
def utf8Bytes (c : Char) : List Nat :=
  let v := c.toNat
  if v < 0x80 then [v]
  else if v < 0x800 then [0xC0 + v / 64, 0x80 + v % 64]
  else if v < 0x10000 then [0xE0 + v / 4096, 0x80 + v / 64 % 64, 0x80 + v % 64]
  else [0xF0 + v / 262144, 0x80 + v / 4096 % 64, 0x80 + v / 64 % 64, 0x80 + v % 64]

/-- The conversion `[]byte(s)`. -/
def goBytes (s : String) : List Nat :=
  s.toList.flatMap utf8Bytes

/-! ## `math/big`: scanning an integer (`fmt.Sscan(str, i)` with `i : *big.Int`) -/

/-- The white space `fmt`'s `SkipSpace` skips (the `space` table of `fmt/scan.go`). -/
def isSpace (c : Char) : Bool :=
  let n := c.toNat
  (0x09 ≤ n && n ≤ 0x0d) || n == 0x20 || n == 0x85 || n == 0xa0 || n == 0x1680 ||
  (0x2000 ≤ n && n ≤ 0x200a) || n == 0x2028 || n == 0x2029 || n == 0x202f ||
  n == 0x205f || n == 0x3000

/-- Value of a digit character in `math/big` (`hexValue`); 37 (`MaxBase + 1`) for a
character that is no digit in any base. -/
def hexValue (ch : Char) : Nat :=
  if '0' ≤ ch ∧ ch ≤ '9' then ch.toNat - '0'.toNat
  else if 'a' ≤ ch ∧ ch ≤ 'z' then ch.toNat - 'a'.toNat + 10
  else if 'A' ≤ ch ∧ ch ≤ 'Z' then ch.toNat - 'A'.toNat + 10
  else 37

/-- The mantissa loop of `nat.scan`: consumes digits of base `b` while there are any,
returns the accumulated value and the number of digits consumed. -/
def scanDigits (b : Nat) : List Char → Nat → Nat → Nat × Nat
  | [], z, n => (z, n)
  | ch :: r, z, n =>
    if hexValue ch < b then scanDigits b r (z * b + hexValue ch) (n + 1) else (z, n)

/-- End of `nat.scan`: with at least one mantissa digit the value is returned; with
none, a lone octal prefix `0` is the number zero and everything else is the error
"syntax error scanning number" (the value left behind is zero). -/
def scanMantissa (b : Nat) (octalPrefix : Bool) (r : List Char) : Nat × Bool :=
  let zn := scanDigits b r 0 0
  if 0 < zn.2 then (zn.1, true)
  else if octalPrefix then (0, true)
  else (0, false)

/-- Library `nat.scan(r, 0)`: the base is chosen by the prefix (`0x`/`0X` 16, `0b`/`0B` 2,
`0` 8, otherwise 10).  Returns the value and whether the scan succeeded
(`err == nil`); the value after a failed scan is zero.  This is the scanner of the
Go releases the repository was written for; from Go 1.13 on `math/big` also reads
the prefix `0o`/`0O` and the digit separator `_`, so on strings with `0o` or `_` the
two differ (`"0o17"` is 0 here and 15 there, `"1_000"` is 1 here and 1000 there).
On strings of digits, with or without the prefixes `0x` and `0`, they agree. -/
def natScan : List Char → Nat × Bool
  | [] => (0, false)
  | ch :: r =>
    if ch = '0' then
      match r with
      | [] => (0, true)
      | ch2 :: r2 =>
        if ch2 = 'x' ∨ ch2 = 'X' then scanMantissa 16 false r2
        else if ch2 = 'b' ∨ ch2 = 'B' then scanMantissa 2 false r2
        else scanMantissa 8 true (ch2 :: r2)
    else scanMantissa 10 false (ch :: r)

/-- Library `(*big.Int).scan(r, 0)` on a fresh `Int`: optional sign, then `nat.scan`.  The
value is paired with the success flag; a failed scan leaves the fresh zero. -/
def intScan : List Char → Int × Bool
  | [] => (0, false)
  | ch :: r =>
    if ch = '-' then
      let m := natScan r
      (if m.2 then -(m.1 : Int) else 0, m.2)
    else if ch = '+' then
      let m := natScan r
      ((m.1 : Int), m.2)
    else
      let m := natScan (ch :: r)
      ((m.1 : Int), m.2)

/-- Library `(*big.Int).Scan` as `fmt.Sscan` calls it: skip leading space, then scan with
the base determined by the prefix. -/
def bigScan (str : String) : Int × Bool :=
  intScan (str.toList.dropWhile isSpace)

/-- Source `atob`: `i := new(big.Int); fmt.Sscan(str, i); return i`.  The error of
`Sscan` is dropped, the integer is returned whatever the scan did. -/
def atob (str : String) : Int :=
  (bigScan str).1

/-! ## `math/big` arithmetic and `Bytes` -/

/-- The constant `BZERO`. -/
def BZERO : Int := 0

/-- Source `isZero`: `i.Cmp(BZERO) == 0`. -/
def isZero (i : Int) : Bool :=
  decide (i = BZERO)

/-- Library `z.Div(x, y)`: Euclidean division; a zero divisor is a run-time panic (`none`). -/
def bigDiv (x y : Int) : Option Int :=
  if y = 0 then none else some (Int.ediv x y)

/-- Library `z.Mod(x, y)`: Euclidean modulus; a zero divisor is a run-time panic (`none`). -/
def bigMod (x y : Int) : Option Int :=
  if y = 0 then none else some (Int.emod x y)

/-- Library `z.Exp(x, y, nil)`: `x**y`, and 1 when `y <= 0`. -/
def bigExp (x y : Int) : Int :=
  if y ≤ 0 then 1 else x ^ y.toNat

/-- Big-endian base-256 digits of `n` in front of `acc`; `fuel` bounds the number of
digits produced. -/
def natBytesAux : Nat → Nat → List Nat → List Nat
  | 0, _, acc => acc
  | fuel + 1, n, acc =>
    if n = 0 then acc else natBytesAux fuel (n / 256) (n % 256 :: acc)

/-- Minimal big-endian byte sequence of a natural number (empty for zero). -/
def natBytes (n : Nat) : List Nat :=
  natBytesAux n n []

/-- Library `x.Bytes()`: the absolute value of `x` as a big-endian byte slice. -/
def Bytes (x : Int) : List Nat :=
  natBytes x.natAbs

/-! ## `encoding/hex` -/

/-- The digit table of `encoding/hex`. -/
def hextable : List Char :=
  "0123456789abcdef".toList

/-- The two characters `hex.Encode` writes for the byte `v`: `hextable[v>>4]` and
`hextable[v&0x0f]`. -/
def hexPair (v : Nat) : List Char :=
  [hextable.getD (v >>> 4) '0', hextable.getD (v &&& 0x0f) '0']

/-- Library `hex.EncodeToString`: the pairs of all bytes, in order. -/
def EncodeToString (src : List Nat) : String :=
  String.mk (src.flatMap hexPair)

/-- Library `fromHexChar` of `encoding/hex`, on a byte. -/
def fromHexChar (c : Nat) : Option Nat :=
  if 48 ≤ c ∧ c ≤ 57 then some (c - 48)
  else if 97 ≤ c ∧ c ≤ 102 then some (c - 97 + 10)
  else if 65 ≤ c ∧ c ≤ 70 then some (c - 65 + 10)
  else none

/-- Pairwise decoding loop of `hex.Decode`. -/
def decodePairs : List Nat → Option (List Nat)
  | [] => some []
  | [_] => none
  | a :: b :: r =>
    match fromHexChar a, fromHexChar b with
    | some x, some y =>
      match decodePairs r with
      | some t => some ((x <<< 4 ||| y) :: t)
      | none => none
    | _, _ => none

/-- Library `hex.DecodeString` on the bytes of its argument: `none` is an error (odd length
or a byte that is no hex digit). -/
def DecodeString (src : List Nat) : Option (List Nat) :=
  if src.length % 2 = 1 then none else decodePairs src

/-! ## `string(bts)` -/

/-- A UTF-8 continuation byte. -/
def isCont (b : Nat) : Bool :=
  decide (0x80 ≤ b ∧ b ≤ 0xBF)

/-- Library `utf8.DecodeRune` on the front of a byte sequence: the code point and the
number of bytes it takes.  A sequence that is not well-formed UTF-8 (a stray or
missing continuation byte, an overlong form, a surrogate, a value above U+10FFFF)
gives U+FFFD and takes one byte. -/
def decodeRune (bs : List Nat) : Nat × Nat :=
  let b0 := bs.getD 0 0
  let b1 := bs.getD 1 0
  let b2 := bs.getD 2 0
  let b3 := bs.getD 3 0
  if b0 < 0x80 then (b0, 1)
  else if 0xC2 ≤ b0 ∧ b0 ≤ 0xDF ∧ isCont b1 then ((b0 - 0xC0) * 64 + (b1 - 0x80), 2)
  else if 0xE0 ≤ b0 ∧ b0 ≤ 0xEF ∧ (if b0 = 0xE0 then 0xA0 else 0x80) ≤ b1 ∧
      b1 ≤ (if b0 = 0xED then 0x9F else 0xBF) ∧ isCont b2 then
    ((b0 - 0xE0) * 4096 + (b1 - 0x80) * 64 + (b2 - 0x80), 3)
  else if 0xF0 ≤ b0 ∧ b0 ≤ 0xF4 ∧ (if b0 = 0xF0 then 0x90 else 0x80) ≤ b1 ∧
      b1 ≤ (if b0 = 0xF4 then 0x8F else 0xBF) ∧ isCont b2 ∧ isCont b3 then
    ((b0 - 0xF0) * 262144 + (b1 - 0x80) * 4096 + (b2 - 0x80) * 64 + (b3 - 0x80), 4)
  else (0xFFFD, 1)

/-- The code points of a byte sequence read as UTF-8, one `decodeRune` after the
other; `fuel` bounds the number of code points. -/
def decodeRunes : Nat → List Nat → List Char
  | 0, _ => []
  | _ + 1, [] => []
  | fuel + 1, b :: bs =>
    let rn := decodeRune (b :: bs)
    Char.ofNat rn.1 :: decodeRunes fuel ((b :: bs).drop rn.2)

/-- The conversion `string(bts)` as the script receives it: the text the bytes
encode.  Bytes that are not well-formed UTF-8 show as U+FFFD here while the Go
string keeps the bytes themselves; on the bytes of a `String` there is no
difference. -/
def goString (bts : List Nat) : String :=
  String.mk (decodeRunes bts.length bts)

/-! ## The bound helpers (`bindHelpers`) -/

/-- Source `parseBin`: both arguments are converted to strings (a failed conversion
is the only error), then scanned by `atob`. -/
def parseBin (arg0 arg1 : Option String) : Option (Int × Int) :=
  match arg0 with
  | none => none
  | some left =>
    match arg1 with
    | none => none
    | some right => some (atob left, atob right)

/-- The string value `"0x" + hex.EncodeToString(z.Bytes())` every arithmetic helper
builds from its result. -/
def hexValueOf (z : Int) : Value :=
  Value.string ("0x" ++ EncodeToString (Bytes z))

/-- Helper `Add`. -/
def Add (arg0 arg1 : Option String) : Outcome :=
  match parseBin arg0 arg1 with
  | none => Outcome.ret Value.undefined
  | some (p0, p1) => Outcome.ret (hexValueOf (p0 + p1))

/-- Helper `Sub`.  The test `p0.Sign() < 0` only evaluates `otto.NaNValue()` and
drops it, so both branches continue to the same encoding. -/
def Sub (arg0 arg1 : Option String) : Outcome :=
  match parseBin arg0 arg1 with
  | none => Outcome.ret Value.undefined
  | some (p0, p1) =>
    let d := p0 - p1
    if d < 0 then Outcome.ret (hexValueOf d) else Outcome.ret (hexValueOf d)

/-- Helper `Mul`. -/
def Mul (arg0 arg1 : Option String) : Outcome :=
  match parseBin arg0 arg1 with
  | none => Outcome.ret Value.undefined
  | some (p0, p1) => Outcome.ret (hexValueOf (p0 * p1))

/-- Helper `Div`. -/
def Div (arg0 arg1 : Option String) : Outcome :=
  match parseBin arg0 arg1 with
  | none => Outcome.ret Value.undefined
  | some (p0, p1) =>
    if isZero p1 then Outcome.ret Value.NaN
    else
      match bigDiv p0 p1 with
      | none => Outcome.fault
      | some q => Outcome.ret (hexValueOf q)

/-- Helper `Mod`. -/
def Mod (arg0 arg1 : Option String) : Outcome :=
  match parseBin arg0 arg1 with
  | none => Outcome.ret Value.undefined
  | some (p0, p1) =>
    if isZero p1 then Outcome.ret Value.NaN
    else
      match bigMod p0 p1 with
      | none => Outcome.fault
      | some r => Outcome.ret (hexValueOf r)

/-- Helper `Equals`. -/
def Equals (arg0 arg1 : Option String) : Outcome :=
  match parseBin arg0 arg1 with
  | none => Outcome.ret Value.undefined
  | some (p0, p1) => Outcome.ret (Value.boolean (decide (p0 = p1)))

/-- Helper `Exp`. -/
def Exp (arg0 arg1 : Option String) : Outcome :=
  match parseBin arg0 arg1 with
  | none => Outcome.ret Value.undefined
  | some (p0, p1) => Outcome.ret (hexValueOf (bigExp p0 p1))

/-- Helper `IsZero`: a comparison of the argument string with three literals. -/
def IsZero (arg0 : Option String) : Outcome :=
  match arg0 with
  | none => Outcome.ret Value.undefined
  | some prm => Outcome.ret (Value.boolean (prm == "0" || prm == "0x" || prm == "0x0"))

/-- Helper `HexToString`: the argument is hex-decoded as it stands. -/
def HexToString (arg0 : Option String) : Outcome :=
  match arg0 with
  | none => Outcome.ret Value.undefined
  | some prm =>
    match DecodeString (goBytes prm) with
    | none => Outcome.ret Value.undefined
    | some bts => Outcome.ret (Value.string (goString bts))

/-- Helper `StringToHex`. -/
def StringToHex (arg0 : Option String) : Outcome :=
  match arg0 with
  | none => Outcome.ret Value.undefined
  | some prm =>
    let bts := goBytes prm
    let bts := if 32 > bts.length then List.replicate (32 - bts.length) 0 ++ bts else bts
    Outcome.ret (Value.string ("0x" ++ EncodeToString bts))

/-- Helper `SHA3`, over the digest function `keccak256` of the hashing package
(bytes in, the 32 digest bytes out).  `prm[1]` indexes the bytes of the argument and
panics when there are fewer than two. -/
def SHA3 (keccak256 : List Nat → List Nat) (arg0 : Option String) : Outcome :=
  match arg0 with
  | none => Outcome.ret Value.undefined
  | some prm =>
    match goBytes prm with
    | c0 :: c1 :: r =>
      let prm := if c1 = 'x'.toNat then r else c0 :: c1 :: r
      match DecodeString prm with
      | none => Outcome.ret Value.undefined
      | some h => Outcome.ret (Value.string ("0x" ++ EncodeToString (keccak256 h)))
    | _ => Outcome.fault

/-! ## The event bootstrap script of `BindDefaults` in package `ate` -/

/-- Script function `events.generateId`:
`return RuntimeId + "_" + evtSource + "_" + evtName`. -/
def events.generateId (RuntimeId evtSource evtName : String) : String :=
  RuntimeId ++ "_" ++ evtSource ++ "_" ++ evtName

/-! ## Numerals and encodings as the specification words them

These definitions are not taken from the source: they say what "a valid decimal or
0x-prefixed hex string denoting x" and "the canonical encoding of x" mean, so that
the source's scanner and encoder can be compared with them. -/

/-- A decimal digit. -/
def isDecDigit (c : Char) : Bool :=
  decide ('0' ≤ c ∧ c ≤ '9')

/-- A lowercase hexadecimal digit. -/
def isLowerHexDigit (c : Char) : Bool :=
  isDecDigit c || decide ('a' ≤ c ∧ c ≤ 'f')

/-- A hexadecimal digit of either case. -/
def isHexDigit (c : Char) : Bool :=
  isLowerHexDigit c || decide ('A' ≤ c ∧ c ≤ 'F')

/-- The number a digit stands for. -/
def digitValue (c : Char) : Nat :=
  if isDecDigit c then c.toNat - 48
  else if decide ('a' ≤ c ∧ c ≤ 'f') then c.toNat - 87
  else if decide ('A' ≤ c ∧ c ≤ 'F') then c.toNat - 55
  else 0

/-- The number a digit string stands for in base `b` (most significant digit first). -/
def numeral (b : Nat) (ds : List Char) : Nat :=
  ds.foldl (fun z c => z * b + digitValue c) 0

/-- A plain decimal string denoting `x`: one or more decimal digits. -/
def IsDecimal (l : List Char) (x : Nat) : Prop :=
  l ≠ [] ∧ (∀ c ∈ l, isDecDigit c = true) ∧ numeral 10 l = x

/-- A 0x-prefixed hex string denoting `x`: `0x` followed by hexadecimal digits.  The
digit string may be empty: `0x` is how the helpers write zero. -/
def IsHex (l : List Char) (x : Nat) : Prop :=
  ∃ ds, l = '0' :: 'x' :: ds ∧ (∀ c ∈ ds, isHexDigit c = true) ∧ numeral 16 ds = x

/-- The string `s` is a valid decimal or 0x-prefixed hex string denoting `x`. -/
def Denotes (s : String) (x : Nat) : Prop :=
  IsDecimal s.toList x ∨ IsHex s.toList x

/-- A digit string has no leading zero: if it starts with `0` it is `0`. -/
def NoLeadingZero (l : List Char) : Prop :=
  l.head? = some '0' → l = ['0']

instance (l : List Char) : Decidable (NoLeadingZero l) :=
  inferInstanceAs (Decidable (l.head? = some '0' → l = ['0']))

instance (l : List Char) (x : Nat) : Decidable (IsDecimal l x) :=
  inferInstanceAs (Decidable (l ≠ [] ∧ (∀ c ∈ l, isDecDigit c = true) ∧ numeral 10 l = x))

/-- The string `s` denotes `x` and, when decimal, has no leading zero. -/
def DenotesPlain (s : String) (x : Nat) : Prop :=
  (IsDecimal s.toList x ∧ NoLeadingZero s.toList) ∨ IsHex s.toList x

/-- The string `s` is the canonical encoding of `x`: `0x` followed by lowercase hex
digits, two per byte of the minimal big-endian byte sequence of `x` (so an even
number of digits of value `x`, the first byte not zero, and no digit at all for
zero). -/
def IsCanonicalEncoding (s : String) (x : Nat) : Prop :=
  ∃ ds, s.toList = '0' :: 'x' :: ds ∧ (∀ c ∈ ds, isLowerHexDigit c = true) ∧
    ds.length % 2 = 0 ∧ ¬ (['0', '0'] <+: ds) ∧ (x = 0 → ds = []) ∧ numeral 16 ds = x

/-- Value of a big-endian byte sequence. -/
def bytesValue (bs : List Nat) : Nat :=
  bs.foldl (fun z v => z * 256 + v) 0

/-- Lowercase hex of a byte sequence: for each byte its high and its low hex digit. -/
def lowerHex (bs : List Nat) : List Char :=
  bs.flatMap fun v => [Nat.digitChar (v / 16), Nat.digitChar (v % 16)]

end Ate

/-! # Calls into a runtime (`runtimemanager.go`) -/

namespace Runtimemanager

/-- The interpreter operations `CallFuncOnObj` and `CallFunc` use, each returning
its value together with its error (`none` is Go's `nil` error).  `V` is
`otto.Value`, `G` is a Go value (`interface{}`). -/
structure Otto (V G : Type) where
  /-- Operation `vm.Get(name)`. -/
  Get : String → V × Option String
  /-- Operation `ob.Object().Call(funcName, param...)` on the value `ob`. -/
  CallOn : V → String → List G → V × Option String
  /-- Operation `vm.Call(funcName, nil, args...)`. -/
  Call : String → List (List G) → V × Option String
  /-- Operation `val.Export()`. -/
  Export : V → G × Option String

/-- Source `Runtime.CallFuncOnObj`, between `Lock` and `Unlock`.  The result is the
pair the Go function returns; `none` in the first place is a `nil` result.  When the
call fails the source returns `err`, the error of `vm.Get`, not `callErr`.  The
calls covered are those in which `vm.Get` and `ob.Object().Call` return: a name that
holds no object makes `ob.Object()` nil and the call panic, which has no place in
the pair. -/
def CallFuncOnObj {V G : Type} (vm : Otto V G) (objName funcName : String) (param : List G) :
    Option G × Option String :=
  let (ob, err) := vm.Get objName
  if err.isSome then (none, err)
  else
    let (val, callErr) := vm.CallOn ob funcName param
    if callErr.isSome then (none, err)
    else
      let (obj, expErr) := vm.Export val
      match expErr with
      | some e => (none, some ("Error when exporting returned value: " ++ e ++ "\n"))
      | none => (some obj, none)

/-- Source `Runtime.CallFunc`, between `Lock` and `Unlock`; `param` is handed to
`vm.Call` as one argument. -/
def CallFunc {V G : Type} (vm : Otto V G) (funcName : String) (param : List G) :
    Option G × Option String :=
  let (val, callErr) := vm.Call funcName [param]
  if callErr.isSome then (none, callErr)
  else
    let (obj, expErr) := vm.Export val
    match expErr with
    | some e => (none, some ("Error when exporting returned value: " ++ e ++ "\n"))
    | none => (some obj, none)

/-! ## The runtime object and its methods

A `Runtime` is modelled with its interpreter state and with the list of steps its
methods have taken so far (oldest first): taking and releasing `rt.mutex`, the
accesses to the interpreter, and the line `Shutdown` writes.  The fields `ep` and
`lockLvl` play no part in the methods below. -/

/-- One step of a method of `Runtime`. -/
inductive Step (Obj : Type) where
  /-- The call `rt.mutex.Lock()`. -/
  | lock : Step Obj
  /-- The deferred call `rt.mutex.Unlock()`. -/
  | unlock : Step Obj
  /-- A call `rt.vm.Set(name, ...)` of `Init` with a host function or value. -/
  | setHost (name : String) : Step Obj
  /-- The call `BindDefaults(rt)`. -/
  | bindDefaults : Step Obj
  /-- The call `ioutil.ReadFile(fileName)`. -/
  | readFile (fileName : String) : Step Obj
  /-- A call `rt.vm.Run(src)`. -/
  | vmRun (src : String) : Step Obj
  /-- A call `rt.vm.Set(name, val)`. -/
  | vmSet (name : String) (val : Obj) : Step Obj
  /-- A call `rt.vm.Get(name)`. -/
  | vmGet (name : String) : Step Obj
  /-- A call of a script function: `ob.Object().Call(..)` or `rt.vm.Call(..)`. -/
  | vmCall (funcName : String) : Step Obj
  /-- A call `val.Export()`. -/
  | vmExport : Step Obj
  /-- The line "Runtime shut down" that `Shutdown` logs. -/
  | shutdown : Step Obj
  deriving DecidableEq, Repr

/-- The interpreter and the file system as the methods of `Runtime` use them.  Every
operation returns the new interpreter state and its error (`none` is `nil`). -/
structure Engine (σ Obj : Type) where
  /-- The interpreter `otto.New()` returns. -/
  New : σ
  /-- The interpreter after the three `vm.Set` calls of `Init(name)` and
  `BindDefaults`. -/
  Boot : σ → String → σ
  /-- Operation `vm.Set(name, val)`. -/
  Set : σ → String → Obj → σ × Option String
  /-- Operation `vm.Run(src)`. -/
  Run : σ → String → σ × Option String
  /-- Operation `ioutil.ReadFile(fileName)`: the content or the error. -/
  ReadFile : String → Except String String

/-- The struct `Runtime`. -/
structure Runtime (σ Obj : Type) where
  /-- Field `vm`, the state of the interpreter. -/
  vm : σ
  /-- Field `name`. -/
  name : String
  /-- The steps taken on this runtime so far. -/
  steps : List (Step Obj)

/-- Source `newRuntime`. -/
def newRuntime {σ Obj : Type} (E : Engine σ Obj) (name : String) : Runtime σ Obj :=
  { vm := E.New, name := name, steps := [] }

/-- Source `Runtime.Shutdown`: it logs one line and does nothing else. -/
def Runtime.Shutdown {σ Obj : Type} (rt : Runtime σ Obj) : Runtime σ Obj :=
  { rt with steps := rt.steps ++ [Step.shutdown] }

/-- Source `Runtime.Init`: three `vm.Set` calls and `BindDefaults`, without taking
the mutex. -/
def Runtime.Init {σ Obj : Type} (E : Engine σ Obj) (rt : Runtime σ Obj) (name : String) :
    Runtime σ Obj :=
  { rt with
    vm := E.Boot rt.vm name
    steps := rt.steps ++ [Step.setHost "events_subscribe", Step.setHost "events_unsubscribe",
      Step.setHost "RuntimeId", Step.bindDefaults] }

/-- Source `Runtime.LoadScriptFile`. -/
def Runtime.LoadScriptFile {σ Obj : Type} (E : Engine σ Obj) (rt : Runtime σ Obj)
    (fileName : String) : Runtime σ Obj × Option String :=
  match E.ReadFile fileName with
  | Except.error err =>
    ({ rt with steps := rt.steps ++ [Step.lock, Step.readFile fileName, Step.unlock] }, some err)
  | Except.ok bytes =>
    let r := E.Run rt.vm bytes
    ({ rt with
       vm := r.1
       steps := rt.steps ++
         [Step.lock, Step.readFile fileName, Step.vmRun bytes, Step.unlock] }, r.2)

/-- Source `Runtime.LoadScriptFiles`: the files one after the other, each through
`LoadScriptFile`, stopping at the first error. -/
def Runtime.LoadScriptFiles {σ Obj : Type} (E : Engine σ Obj) (rt : Runtime σ Obj) :
    List String → Runtime σ Obj × Option String
  | [] => (rt, none)
  | sf :: rest =>
    let r := rt.LoadScriptFile E sf
    match r.2 with
    | some err => (r.1, some err)
    | none => Runtime.LoadScriptFiles E r.1 rest

/-- Source `Runtime.BindScriptObject`. -/
def Runtime.BindScriptObject {σ Obj : Type} (E : Engine σ Obj) (rt : Runtime σ Obj)
    (name : String) (val : Obj) : Runtime σ Obj × Option String :=
  let r := E.Set rt.vm name val
  ({ rt with vm := r.1, steps := rt.steps ++ [Step.lock, Step.vmSet name val, Step.unlock] }, r.2)

/-- Source `Runtime.AddScript`. -/
def Runtime.AddScript {σ Obj : Type} (E : Engine σ Obj) (rt : Runtime σ Obj)
    (script : String) : Runtime σ Obj × Option String :=
  let r := E.Run rt.vm script
  ({ rt with vm := r.1, steps := rt.steps ++ [Step.lock, Step.vmRun script, Step.unlock] }, r.2)

/-- The steps of source `Runtime.CallFuncOnObj`, whose results `CallFuncOnObj` gives:
the mutex is taken first and released by the deferred `Unlock` at every return. -/
def CallFuncOnObjSteps {V G : Type} (Obj : Type) (vm : Otto V G) (objName funcName : String)
    (param : List G) : List (Step Obj) :=
  let (ob, err) := vm.Get objName
  if err.isSome then [Step.lock, Step.vmGet objName, Step.unlock]
  else
    let (_, callErr) := vm.CallOn ob funcName param
    if callErr.isSome then [Step.lock, Step.vmGet objName, Step.vmCall funcName, Step.unlock]
    else [Step.lock, Step.vmGet objName, Step.vmCall funcName, Step.vmExport, Step.unlock]

/-- The steps of source `Runtime.CallFunc`, whose results `CallFunc` gives. -/
def CallFuncSteps {V G : Type} (Obj : Type) (vm : Otto V G) (funcName : String)
    (param : List G) : List (Step Obj) :=
  let (_, callErr) := vm.Call funcName [param]
  if callErr.isSome then [Step.lock, Step.vmCall funcName, Step.unlock]
  else [Step.lock, Step.vmCall funcName, Step.vmExport, Step.unlock]

/-! ## The registry

The map `runtimes` holds pointers: a `Runtime` lives in `heap` at its address and
the map sends a name to an address. -/

/-- The struct `JsObj`. -/
structure JsObj (Obj : Type) where
  /-- Field `Name`. -/
  Name : String
  /-- Field `Object`. -/
  Object : Obj

/-- The struct `RuntimeManager` (without the event processor `ep`). -/
structure RuntimeManager (Obj : Type) where
  /-- Field `runtimes`: the address stored under a name, if any. -/
  runtimes : String → Option Nat
  /-- Field `apiObjs`. -/
  apiObjs : List (JsObj Obj)
  /-- Field `apiScript`. -/
  apiScript : List String

/-- The manager together with the runtimes allocated so far, by address. -/
structure World (σ Obj : Type) where
  /-- The manager. -/
  rm : RuntimeManager Obj
  /-- The runtime objects; the address of one is its position. -/
  heap : List (Runtime σ Obj)

/-- Source `NewRuntimeManager`, with nothing allocated. -/
def NewRuntimeManager (σ Obj : Type) : World σ Obj :=
  { rm := { runtimes := fun _ => none, apiObjs := [], apiScript := [] }, heap := [] }

/-- Source `RuntimeManager.CreateRuntime`: the new runtime is stored under `name`,
initialised, given every default object and then every default script; errors of
binding and loading are printed and otherwise ignored.  Returns the address. -/
def CreateRuntime {σ Obj : Type} (E : Engine σ Obj) (w : World σ Obj) (name : String) :
    World σ Obj × Nat :=
  let p := w.heap.length
  let rt := newRuntime E name
  let runtimes := Function.update w.rm.runtimes name (some p)
  let rt := rt.Init E name
  let rt := w.rm.apiObjs.foldl (fun rt jo => (rt.BindScriptObject E jo.Name jo.Object).1) rt
  let rt := w.rm.apiScript.foldl (fun rt s => (rt.AddScript E s).1) rt
  ({ rm := { w.rm with runtimes := runtimes }, heap := w.heap ++ [rt] }, p)

/-- Source `RuntimeManager.GetRuntime`: the address under `name`, or `nil`. -/
def GetRuntime {σ Obj : Type} (w : World σ Obj) (name : String) : Option Nat :=
  match w.rm.runtimes name with
  | some rt => some rt
  | none => none

/-- Source `RuntimeManager.RemoveRuntime`. -/
def RemoveRuntime {σ Obj : Type} (w : World σ Obj) (name : String) : World σ Obj :=
  match w.rm.runtimes name with
  | some p =>
    { rm := { w.rm with runtimes := Function.update w.rm.runtimes name none }
      heap := w.heap.modify Runtime.Shutdown p }
  | none => w

/-- Source `RuntimeManager.RegisterApiObject`. -/
def RegisterApiObject {σ Obj : Type} (w : World σ Obj) (objectname : String) (api : Obj) :
    World σ Obj :=
  { w with rm := { w.rm with apiObjs := w.rm.apiObjs ++ [{ Name := objectname, Object := api }] } }

/-- Source `RuntimeManager.RegisterApiScript`. -/
def RegisterApiScript {σ Obj : Type} (w : World σ Obj) (script : String) : World σ Obj :=
  { w with rm := { w.rm with apiScript := w.rm.apiScript ++ [script] } }

/-! ## Registration sequences, bindings and schedules as the specification words them

These definitions are not taken from the source: they say what "a sequence of
registration calls", "the value bound under a name" and "two operations issued
concurrently" mean. -/

/-- A registration call: `RegisterApiObject(name, api)` or `RegisterApiScript(script)`. -/
inductive Registration (Obj : Type) where
  | object (name : String) (api : Obj) : Registration Obj
  | script (src : String) : Registration Obj

/-- Performing one registration call. -/
def register {σ Obj : Type} (w : World σ Obj) : Registration Obj → World σ Obj
  | Registration.object name api => RegisterApiObject w name api
  | Registration.script src => RegisterApiScript w src

/-- The objects of a registration sequence, in order. -/
def objectsOf {Obj : Type} : List (Registration Obj) → List (JsObj Obj)
  | [] => []
  | Registration.object name api :: r => { Name := name, Object := api } :: objectsOf r
  | Registration.script _ :: r => objectsOf r

/-- The scripts of a registration sequence, in order. -/
def scriptsOf {Obj : Type} : List (Registration Obj) → List String
  | [] => []
  | Registration.object _ _ :: r => scriptsOf r
  | Registration.script src :: r => src :: scriptsOf r

/-- The value registered last under `name`, if any. -/
def lastRegistered {Obj : Type} (objs : List (JsObj Obj)) (name : String) : Option Obj :=
  (objs.reverse.find? (fun jo => jo.Name == name)).map (fun jo => jo.Object)

/-- The interpreter binds by name: after `vm.Set(n, v)` the global `n` is `v` and
every other global is what it was.  `Get` reads a global. -/
def Overwrites {σ Obj : Type} (E : Engine σ Obj) (Get : σ → String → Option Obj) : Prop :=
  ∀ vm n v, Get (E.Set vm n v).1 n = some v ∧ ∀ m, m ≠ n → Get (E.Set vm n v).1 m = Get vm m

/-- The steps of binding one default object. -/
def bindSteps {Obj : Type} (jo : JsObj Obj) : List (Step Obj) :=
  [Step.lock, Step.vmSet jo.Name jo.Object, Step.unlock]

/-- The steps of running one default script. -/
def scriptSteps {Obj : Type} (src : String) : List (Step Obj) :=
  [Step.lock, Step.vmRun src, Step.unlock]

/-- The steps of `Init`. -/
def initSteps {Obj : Type} : List (Step Obj) :=
  [Step.setHost "events_subscribe", Step.setHost "events_unsubscribe",
    Step.setHost "RuntimeId", Step.bindDefaults]

/-- An operation holds the mutex for its full duration: its steps are `lock`, then
steps that neither take nor release the mutex, then `unlock`. -/
def Guarded {Obj : Type} (es : List (Step Obj)) : Prop :=
  ∃ body, es = Step.lock :: body ++ [Step.unlock] ∧ Step.lock ∉ body ∧ Step.unlock ∉ body

/-- A schedule of two threads (`false` and `true`): the steps in the order they
happen, each with the thread taking it.  This is the steps of one thread. -/
def threadSteps {Obj : Type} (t : Bool) (s : List (Bool × Step Obj)) : List (Step Obj) :=
  (s.filter (fun p => p.1 == t)).map Prod.snd

/-- The steps `es` as taken by thread `t`. -/
def onThread {Obj : Type} (t : Bool) (es : List (Step Obj)) : List (Bool × Step Obj) :=
  es.map (fun e => (t, e))

/-- A schedule respects the mutex, `holder` being the thread that holds it at the
start: `lock` is taken only when nobody holds the mutex, `unlock` only by the
holder. -/
def admissible {Obj : Type} : Option Bool → List (Bool × Step Obj) → Bool
  | _, [] => true
  | holder, (t, Step.lock) :: s => holder.isNone && admissible (some t) s
  | holder, (t, Step.unlock) :: s => (holder == some t) && admissible none s
  | holder, _ :: s => admissible holder s

/-- An interpreter for examples: its state is the list of bindings made (newest
first) and the list of sources run; running the source `"throw 1"` fails, reading
a file gives the file name as its content. -/
def exampleEngine : Engine (List (String × Nat) × List String) Nat :=
  { New := ([], [])
    Boot := fun vm _ => vm
    Set := fun vm n v => (((n, v) :: vm.1, vm.2), none)
    Run := fun vm src => ((vm.1, vm.2 ++ [src]), if src = "throw 1" then some "1" else none)
    ReadFile := fun fileName => Except.ok fileName }

/-- Reading a global of the example interpreter: the newest binding of the name. -/
def exampleGet (vm : List (String × Nat) × List String) (n : String) : Option Nat :=
  (vm.1.find? (fun p => p.1 == n)).map Prod.snd

/-- The struct `RuntimeSub` without its back-pointer to the runtime. -/
structure RuntimeSub where
  /-- Field `source`. -/
  source : String
  /-- Field `tpe`. -/
  tpe : String
  /-- Field `tgt`. -/
  tgt : String
  /-- Field `id`. -/
  id : String

/-- Source `newRuntimeSub`, as `events_subscribe` calls it with the four strings the
script passed. -/
def newRuntimeSub (eventSource eventType eventTarget subId : String) : RuntimeSub :=
  { source := eventSource, tpe := eventType, tgt := eventTarget, id := subId }

/-- Source `RuntimeSub.Post`: the call
`rs.rt.CallFuncOnObj("events", "post", rs.id, types.ToJsValue(e))`, given as the
object name, the method name and the argument list.  `ToJsValue` is the serializer
of the `types` package. -/
def RuntimeSub.Post {Ev : Type} (ToJsValue : Ev → String) (rs : RuntimeSub) (e : Ev) :
    String × String × List String :=
  ("events", "post", [rs.id, ToJsValue e])

/-! ## The bootstrap script of the runtime

`Runtime.Init` calls `BindDefaults(rt)` of package `runtimemanager`, whose file is not
among the sources; the script in package `ate` is installed into another runtime
type and calls a host object that `Runtime.Init` does not bind.  What the script of
`Runtime.Init` does with subscriptions is therefore taken from the specification. -/

/-- Modelled from the spec: an event as the event processor posts it and as the
script sees it after parsing; the Go type of events is declared outside the sources.
By the spec (section 6) an event carries at least its source, its event type and an
opaque payload, and can be serialized to text for crossing into script code. -/
structure BusEvent (P : Type) where
  /-- The source of the event. -/
  Source : String
  /-- The type of the event. -/
  Event : String
  /-- The opaque payload. -/
  payload : P

/-- What one call of the script entry point does: it throws, it calls one callback
once with an event, or it finds no callback for the id. -/
inductive PostResult (Cb P : Type) where
  | threw : PostResult Cb P
  | invoked (cfn : Cb) (event : BusEvent P) : PostResult Cb P
  | noCallback (eventId : String) : PostResult Cb P

/-- Modelled from the spec: the script function
`events.subscribe(source, type, target, callback)` of the bootstrap script that
`BindDefaults` of package `runtimemanager` installs, which is not among the sources.
By the spec (sections 3, 4.3 and 6) a subscription made from a script has an id
derived deterministically from the runtime name, the source and the event type; the
script registers `(source, type, target, id)` through the subscribe primitive, which
here is the function `events_subscribe` of `Init` building the `RuntimeSub`, and the
callback is kept under the id, a later subscription to the same id replacing an
earlier one.  `deriveId` is the derivation of the id and `callbacks` the callbacks
kept so far; the result is the new table and the subscription registered. -/
def events.subscribe {Cb : Type} (deriveId : String → String → String → String)
    (RuntimeId : String) (callbacks : String → Option Cb)
    (source tpe target : String) (callback : Cb) : (String → Option Cb) × RuntimeSub :=
  let id := deriveId RuntimeId source tpe
  (Function.update callbacks id (some callback), newRuntimeSub source tpe target id)

/-- Modelled from the spec: the script entry point `events.post` of the same
bootstrap script, which is not among the sources.  By the spec (section 4.3) the
bridge calls it with the subscription id and the serialized event, and it is the
script's part to look up the callback by the id and to invoke it; the event handed to
the callback is the serialized event parsed.  `parse` is the parser of the script
(`none` when the text cannot be parsed, and then the call throws), `args` the
argument list of the call. -/
def events.post {Cb P : Type} (parse : String → Option (BusEvent P))
    (callbacks : String → Option Cb) (args : List String) : PostResult Cb P :=
  match args with
  | [id, eventJson] =>
    match parse eventJson with
    | none => PostResult.threw
    | some event =>
      match callbacks id with
      | some cfn => PostResult.invoked cfn event
      | none => PostResult.noCallback id
  | _ => PostResult.threw

end Runtimemanager

/-! # Properties -/

namespace Ate

/-! ## The scanner on numerals -/

theorem char_le_iff (a b : Char) : a ≤ b ↔ a.toNat ≤ b.toNat := Iff.rfl

theorem hexValue_of_isHexDigit (c : Char) (h : isHexDigit c = true) :
    hexValue c = digitValue c ∧ hexValue c < 16 := by
  simp only [isHexDigit, isLowerHexDigit, isDecDigit, Bool.or_eq_true, decide_eq_true_eq,
    char_le_iff] at h
  simp only [hexValue, digitValue, isDecDigit, decide_eq_true_eq, char_le_iff]
  have e0 : '0'.toNat = 48 := rfl
  have e9 : '9'.toNat = 57 := rfl
  have ea : 'a'.toNat = 97 := rfl
  have ef : 'f'.toNat = 102 := rfl
  have ez : 'z'.toNat = 122 := rfl
  have eA : 'A'.toNat = 65 := rfl
  have eF : 'F'.toNat = 70 := rfl
  have eZ : 'Z'.toNat = 90 := rfl
  simp only [e0, e9, ea, ef, ez, eA, eF, eZ] at h ⊢
  split_ifs <;> omega

theorem hexValue_of_isDecDigit (c : Char) (h : isDecDigit c = true) :
    hexValue c = digitValue c ∧ hexValue c < 10 := by
  simp only [isDecDigit, decide_eq_true_eq, char_le_iff] at h
  simp only [hexValue, digitValue, isDecDigit, decide_eq_true_eq, char_le_iff]
  have e0 : '0'.toNat = 48 := rfl
  have e9 : '9'.toNat = 57 := rfl
  simp only [e0, e9] at h ⊢
  split_ifs
  omega

/-- On a string of digits of base `b` the mantissa loop consumes everything. -/
theorem scanDigits_digits (b : Nat) (l : List Char)
    (h : ∀ c ∈ l, hexValue c = digitValue c ∧ hexValue c < b) (z n : Nat) :
    scanDigits b l z n = (l.foldl (fun z c => z * b + digitValue c) z, n + l.length) := by
  induction l generalizing z n with
  | nil => simp [scanDigits]
  | cons c r ih =>
    have hc := h c (List.mem_cons_self _ _)
    have hr : ∀ d ∈ r, hexValue d = digitValue d ∧ hexValue d < b :=
      fun d hd => h d (List.mem_cons_of_mem _ hd)
    simp only [scanDigits, hc.2, if_true, List.foldl_cons, List.length_cons]
    rw [ih hr, hc.1]
    congr 1
    omega

theorem scanMantissa_digits (b : Nat) (o : Bool) (l : List Char)
    (h : ∀ c ∈ l, hexValue c = digitValue c ∧ hexValue c < b) :
    (scanMantissa b o l).1 = numeral b l := by
  unfold scanMantissa
  rw [scanDigits_digits b l h]
  cases l with
  | nil => cases o <;> simp [numeral]
  | cons c r => simp [numeral]

theorem isDecDigit_facts (c : Char) (h : isDecDigit c = true) :
    isSpace c = false ∧ c ≠ '-' ∧ c ≠ '+' := by
  simp only [isDecDigit, decide_eq_true_eq, char_le_iff] at h
  have e0 : '0'.toNat = 48 := rfl
  have e9 : '9'.toNat = 57 := rfl
  rw [e0, e9] at h
  refine ⟨?_, ?_, ?_⟩
  · simp only [isSpace, Bool.or_eq_false_iff, Bool.and_eq_false_iff, decide_eq_false_iff_not,
      beq_eq_false_iff_ne, ne_eq]
    omega
  · rintro rfl
    have : '-'.toNat = 45 := rfl
    omega
  · rintro rfl
    have : '+'.toNat = 43 := rfl
    omega

/-- The scanner reads a 0x-prefixed hex string as the number it denotes. -/
theorem intScan_hex (l : List Char) (x : Nat) (h : IsHex l x) :
    (intScan (l.dropWhile isSpace)).1 = (x : Int) := by
  obtain ⟨ds, rfl, hds, hx⟩ := h
  have hd : ∀ c ∈ ds, hexValue c = digitValue c ∧ hexValue c < 16 :=
    fun c hc => hexValue_of_isHexDigit c (hds c hc)
  have h0 := isDecDigit_facts '0' (by decide)
  rw [List.dropWhile_cons_of_neg (by simp [h0.1])]
  simp only [intScan, h0.2.1, h0.2.2, if_false, natScan, if_true, true_or]
  rw [scanMantissa_digits 16 false ds hd, hx]

/-- The scanner reads a decimal string without a leading zero as the number it
denotes. -/
theorem intScan_decimal (l : List Char) (x : Nat) (h : IsDecimal l x) (hz : NoLeadingZero l) :
    (intScan (l.dropWhile isSpace)).1 = (x : Int) := by
  obtain ⟨hne, hds, hx⟩ := h
  cases l with
  | nil => exact absurd rfl hne
  | cons c r =>
    have hc := isDecDigit_facts c (hds c (List.mem_cons_self _ _))
    have hd : ∀ d ∈ c :: r, hexValue d = digitValue d ∧ hexValue d < 10 :=
      fun d hd => hexValue_of_isDecDigit d (hds d hd)
    rw [List.dropWhile_cons_of_neg (by simp [hc.1])]
    simp only [intScan, hc.2.1, hc.2.2, if_false]
    by_cases h0 : c = '0'
    · subst h0
      have := hz rfl
      simp only [List.cons.injEq, true_and] at this
      subst this
      subst hx
      simp [natScan, numeral, digitValue, isDecDigit]
    · simp only [natScan, h0, if_false]
      rw [scanMantissa_digits 10 false (c :: r) hd, hx]

/-- The scanner agrees with the specification's reading on hex strings and on decimal
strings without a leading zero. -/
theorem atob_of_denotesPlain (s : String) (x : Nat) (h : DenotesPlain s x) :
    atob s = (x : Int) := by
  unfold atob bigScan
  rcases h with ⟨hd, hz⟩ | hh
  · exact intScan_decimal _ _ hd hz
  · exact intScan_hex _ _ hh

/-! ## The encoder -/

theorem toList_EncodeToString (bs : List Nat) :
    (EncodeToString bs).toList = bs.flatMap hexPair := rfl

theorem hextable_digit : ∀ k, k < 16 →
    isLowerHexDigit (hextable.getD k '0') = true ∧ digitValue (hextable.getD k '0') = k ∧
    (hextable.getD k '0' = '0' → k = 0) := by
  decide

theorem shr4 (v : Nat) : v >>> 4 = v / 16 := by
  rw [Nat.shiftRight_eq_div_pow]

theorem and15 (v : Nat) : v &&& 0x0f = v % 16 := by
  have := Nat.and_pow_two_sub_one_eq_mod v 4
  simpa using this

theorem hexPair_spec (v : Nat) (hv : v < 256) :
    (∀ c ∈ hexPair v, isLowerHexDigit c = true) ∧
    (∀ z, (hexPair v).foldl (fun z c => z * 16 + digitValue c) z = z * 256 + v) ∧
    (hexPair v = ['0', '0'] → v = 0) := by
  have h1 : v / 16 < 16 := by omega
  have h2 : v % 16 < 16 := by omega
  obtain ⟨a1, a2, a3⟩ := hextable_digit (v / 16) h1
  obtain ⟨b1, b2, b3⟩ := hextable_digit (v % 16) h2
  simp only [hexPair, shr4, and15]
  refine ⟨?_, ?_, ?_⟩
  · intro c hc
    simp only [List.mem_cons, List.mem_singleton, List.not_mem_nil, or_false] at hc
    rcases hc with rfl | rfl
    · exact a1
    · exact b1
  · intro z
    simp only [List.foldl_cons, List.foldl_nil, a2, b2]
    omega
  · intro h
    simp only [List.cons.injEq, and_true] at h
    have := a3 h.1
    have := b3 h.2
    omega

theorem numeral_flatMap_hexPair (bs : List Nat) (h : ∀ v ∈ bs, v < 256) (z : Nat) :
    (bs.flatMap hexPair).foldl (fun z c => z * 16 + digitValue c) z
      = bs.foldl (fun z v => z * 256 + v) z := by
  induction bs generalizing z with
  | nil => rfl
  | cons v r ih =>
    have hv := hexPair_spec v (h v (List.mem_cons_self _ _))
    rw [List.flatMap_cons, List.foldl_append, hv.2.1, List.foldl_cons]
    exact ih (fun w hw => h w (List.mem_cons_of_mem _ hw)) _

theorem length_flatMap_hexPair (bs : List Nat) : (bs.flatMap hexPair).length = 2 * bs.length := by
  induction bs with
  | nil => rfl
  | cons v r ih => simp [List.flatMap_cons, hexPair, ih]; omega

theorem lower_flatMap_hexPair (bs : List Nat) (h : ∀ v ∈ bs, v < 256) :
    ∀ c ∈ bs.flatMap hexPair, isLowerHexDigit c = true := by
  intro c hc
  rw [List.mem_flatMap] at hc
  obtain ⟨v, hv, hc⟩ := hc
  exact (hexPair_spec v (h v hv)).1 c hc

/-! ## The byte sequence of a number -/

theorem natBytesAux_spec (fuel : Nat) : ∀ (n : Nat) (acc : List Nat), n ≤ fuel →
    ∃ pre, natBytesAux fuel n acc = pre ++ acc ∧ (∀ v ∈ pre, v < 256) ∧
      bytesValue pre = n ∧ pre.head? ≠ some 0 ∧ (n = 0 → pre = []) := by
  induction fuel with
  | zero =>
    intro n acc hn
    have : n = 0 := by omega
    subst this
    exact ⟨[], rfl, by simp, rfl, by simp, fun _ => rfl⟩
  | succ fuel ih =>
    intro n acc hn
    by_cases h0 : n = 0
    · subst h0
      exact ⟨[], by simp [natBytesAux], by simp, rfl, by simp, fun _ => rfl⟩
    · obtain ⟨pre, hpre, hlt, hval, hhead, hnil⟩ := ih (n / 256) (n % 256 :: acc) (by omega)
      refine ⟨pre ++ [n % 256], ?_, ?_, ?_, ?_, ?_⟩
      · simp only [natBytesAux, h0, if_false, hpre, List.append_assoc, List.singleton_append]
      · intro v hv
        rw [List.mem_append, List.mem_singleton] at hv
        rcases hv with hv | rfl
        · exact hlt v hv
        · omega
      · unfold bytesValue at hval ⊢
        rw [List.foldl_append, hval]
        simp only [List.foldl_cons, List.foldl_nil]
        omega
      · cases pre with
        | nil =>
          have : n / 256 = 0 := by simpa [bytesValue] using hval.symm
          simp only [List.nil_append, List.head?_cons, ne_eq, Option.some.injEq]
          omega
        | cons p q => simpa using hhead
      · intro h; exact absurd h h0

theorem natBytes_spec (n : Nat) :
    (∀ v ∈ natBytes n, v < 256) ∧ bytesValue (natBytes n) = n ∧
      (natBytes n).head? ≠ some 0 ∧ (n = 0 → natBytes n = []) := by
  obtain ⟨pre, hpre, h⟩ := natBytesAux_spec n n [] (Nat.le_refl n)
  rw [List.append_nil] at hpre
  unfold natBytes
  rw [hpre]
  exact h

/-! ## The encoding of a result -/

theorem toList_hexString (bs : List Nat) :
    ("0x" ++ EncodeToString bs).toList = '0' :: 'x' :: bs.flatMap hexPair := rfl

/-- What the helpers build from a non-negative result is its canonical encoding. -/
theorem canonical_natBytes (n : Nat) :
    IsCanonicalEncoding ("0x" ++ EncodeToString (natBytes n)) n := by
  obtain ⟨hlt, hval, hhead, hnil⟩ := natBytes_spec n
  refine ⟨(natBytes n).flatMap hexPair, toList_hexString _, lower_flatMap_hexPair _ hlt, ?_, ?_,
    ?_, ?_⟩
  · rw [length_flatMap_hexPair]; omega
  · intro hp
    cases hb : natBytes n with
    | nil => rw [hb] at hp; simp at hp
    | cons v r =>
      rw [hb] at hp hhead hlt
      have hv := hexPair_spec v (hlt v (List.mem_cons_self _ _))
      rw [List.flatMap_cons] at hp
      have h2 : hexPair v = ['0', '0'] := by
        obtain ⟨t, ht⟩ := hp
        simp only [hexPair, List.cons_append, List.nil_append, List.cons.injEq] at ht ⊢
        exact ⟨ht.1.symm, ht.2.1.symm, trivial⟩
      have := hv.2.2 h2
      subst this
      simp at hhead
  · intro h0
    rw [hnil h0]; rfl
  · unfold numeral
    rw [numeral_flatMap_hexPair _ hlt]
    exact hval

theorem isHexDigit_of_lower (c : Char) (h : isLowerHexDigit c = true) : isHexDigit c = true := by
  simp [isHexDigit, h]

/-- A canonical encoding is a valid hex string denoting the same number. -/
theorem denotesPlain_of_canonical (s : String) (x : Nat) (h : IsCanonicalEncoding s x) :
    DenotesPlain s x := by
  obtain ⟨ds, hs, hlow, _, _, _, hx⟩ := h
  exact Or.inr ⟨ds, hs, fun c hc => isHexDigit_of_lower c (hlow c hc), hx⟩

theorem hexValueOf_natCast (n : Nat) :
    hexValueOf (n : Int) = Value.string ("0x" ++ EncodeToString (natBytes n)) := by
  simp [hexValueOf, Bytes]

theorem Sub_eq (a b : String) :
    Sub (some a) (some b) = Outcome.ret (hexValueOf (atob a - atob b)) := by
  simp [Sub, parseBin]

theorem hexValueOf_neg (z : Int) : hexValueOf (-z) = hexValueOf z := by
  simp [hexValueOf, Bytes]


/-- One string is the canonical encoding of at most one number. -/
theorem canonical_value_unique (s : String) (x y : Nat) (hx : IsCanonicalEncoding s x)
    (hy : IsCanonicalEncoding s y) : x = y := by
  obtain ⟨ds, hs, -, -, -, -, hvx⟩ := hx
  obtain ⟨es, ht, -, -, -, -, hvy⟩ := hy
  rw [hs] at ht
  simp only [List.cons.injEq, true_and] at ht
  rw [← hvx, ← hvy, ht]

theorem Add_eq (a b : String) :
    Add (some a) (some b) = Outcome.ret (hexValueOf (atob a + atob b)) := by
  simp [Add, parseBin]

theorem Mul_eq (a b : String) :
    Mul (some a) (some b) = Outcome.ret (hexValueOf (atob a * atob b)) := by
  simp [Mul, parseBin]

theorem Exp_eq (a b : String) :
    Exp (some a) (some b) = Outcome.ret (hexValueOf (bigExp (atob a) (atob b))) := by
  simp [Exp, parseBin]

theorem bigExp_natCast (x y : Nat) : bigExp (x : Int) (y : Int) = ((x ^ y : Nat) : Int) := by
  unfold bigExp
  by_cases hy : y = 0
  · subst hy; simp
  · have : ¬ ((y : Int) ≤ 0) := by omega
    simp [this]

/-! ## Bytes of a string and length of an encoding -/

theorem hextable_eq_digitChar : ∀ k, k < 16 → hextable.getD k '0' = Nat.digitChar k := by
  decide

theorem hexPair_eq_digitChar (v : Nat) (hv : v < 256) :
    hexPair v = [Nat.digitChar (v / 16), Nat.digitChar (v % 16)] := by
  simp only [hexPair, shr4, and15]
  rw [hextable_eq_digitChar (v / 16) (by omega), hextable_eq_digitChar (v % 16) (by omega)]

theorem flatMap_hexPair_eq_lowerHex (bs : List Nat) (h : ∀ v ∈ bs, v < 256) :
    bs.flatMap hexPair = lowerHex bs := by
  induction bs with
  | nil => rfl
  | cons v r ih =>
    simp only [lowerHex, List.flatMap_cons] at ih ⊢
    rw [ih (fun w hw => h w (List.mem_cons_of_mem _ hw)),
      hexPair_eq_digitChar v (h v (List.mem_cons_self _ _))]

theorem utf8Bytes_lt (c : Char) : ∀ v ∈ utf8Bytes c, v < 256 := by
  have hc : c.toNat < 0x110000 := by
    have := c.valid
    simp only [UInt32.isValidChar, Nat.isValidChar] at this
    have e : c.toNat = c.val.toNat := rfl
    omega
  intro v hv
  unfold utf8Bytes at hv
  simp only at hv
  split_ifs at hv <;> simp only [List.mem_cons, List.mem_singleton, List.not_mem_nil, or_false] at hv <;> omega

theorem goBytes_lt (s : String) : ∀ v ∈ goBytes s, v < 256 := by
  intro v hv
  unfold goBytes at hv
  rw [List.mem_flatMap] at hv
  obtain ⟨c, -, hc⟩ := hv
  exact utf8Bytes_lt c v hc

theorem length_hexString (bs : List Nat) :
    ("0x" ++ EncodeToString bs).length = 2 + 2 * bs.length := by
  show ("0x" ++ EncodeToString bs).toList.length = _
  rw [toList_hexString]
  simp only [List.length_cons, length_flatMap_hexPair]
  omega


/-! ## Zero results -/

theorem string_eq_of_toList (s t : String) (h : s.toList = t.toList) : s = t := by
  cases s; cases t; simp_all [String.toList]

/-- Shape of the string built from a result `z`: it is `"0x"` exactly when `z` is
zero, and otherwise carries an even, positive number of digits not starting with a
zero byte. -/
theorem hexValueOf_shape (z : Int) :
    ∃ r, hexValueOf z = Value.string r ∧
      (IsZero (some r) = Outcome.ret (Value.boolean true) ↔ z = 0) ∧
      (z = 0 → r = "0x") ∧
      (z ≠ 0 → ∃ ds, r.toList = '0' :: 'x' :: ds ∧ 0 < ds.length ∧ ds.length % 2 = 0 ∧
        ¬ (['0', '0'] <+: ds) ∧ r ≠ "0" ∧ r ≠ "0x" ∧ r ≠ "0x0") := by
  obtain ⟨ds, hs, -, heven, hpre, hnil, hval⟩ := canonical_natBytes z.natAbs
  have hz : z = 0 ↔ z.natAbs = 0 := Int.natAbs_eq_zero.symm
  have h0 : z = 0 → "0x" ++ EncodeToString (natBytes z.natAbs) = "0x" := by
    intro h
    apply string_eq_of_toList
    rw [hs, hnil (hz.mp h)]
    rfl
  have hne : z ≠ 0 → ds ≠ [] := by
    intro h hd
    rw [hd] at hval
    exact h (hz.mpr hval.symm)
  have hshape : z ≠ 0 → "0x" ++ EncodeToString (natBytes z.natAbs) ≠ "0" ∧
      "0x" ++ EncodeToString (natBytes z.natAbs) ≠ "0x" ∧
      "0x" ++ EncodeToString (natBytes z.natAbs) ≠ "0x0" := by
    intro h
    have hd := hne h
    refine ⟨?_, ?_, ?_⟩
    · intro e
      have := congrArg String.toList e
      rw [hs] at this
      exact absurd this (by simp [String.toList])
    · intro e
      have := congrArg String.toList e
      rw [hs] at this
      have h2 : '0' :: 'x' :: ds = ['0', 'x'] := this
      simp only [List.cons.injEq, true_and] at h2
      exact hd h2
    · intro e
      have := congrArg String.toList e
      rw [hs] at this
      have h2 : '0' :: 'x' :: ds = ['0', 'x', '0'] := this
      simp only [List.cons.injEq, true_and] at h2
      rw [h2] at heven
      simp at heven
  refine ⟨"0x" ++ EncodeToString (natBytes z.natAbs), rfl, ?_, h0, ?_⟩
  · constructor
    · intro h
      by_contra hz0
      obtain ⟨h1, h2, h3⟩ := hshape hz0
      simp [IsZero, h1, h2, h3] at h
    · intro h
      rw [h0 h]
      rfl
  · intro h
    obtain ⟨h1, h2, h3⟩ := hshape h
    refine ⟨ds, hs, ?_, heven, hpre, h1, h2, h3⟩
    exact List.length_pos.mpr (hne h)

theorem Div_string (a b r : String) (h : Div (some a) (some b) = Outcome.ret (Value.string r)) :
    Value.string r = hexValueOf (Int.ediv (atob a) (atob b)) := by
  by_cases hz : atob b = 0
  · simp [Div, parseBin, isZero, BZERO, hz] at h
  · simp only [Div, parseBin, isZero, BZERO, hz, decide_False, Bool.false_eq_true, if_false,
      bigDiv, Outcome.ret.injEq] at h
    exact h.symm

theorem Mod_string (a b r : String) (h : Mod (some a) (some b) = Outcome.ret (Value.string r)) :
    Value.string r = hexValueOf (Int.emod (atob a) (atob b)) := by
  by_cases hz : atob b = 0
  · simp [Mod, parseBin, isZero, BZERO, hz] at h
  · simp only [Mod, parseBin, isZero, BZERO, hz, decide_False, Bool.false_eq_true, if_false,
      bigMod, Outcome.ret.injEq] at h
    exact h.symm

/-- Every string an arithmetic helper returns is `hexValueOf` of the integer it
computed from its two scanned operands. -/
theorem helper_string :
    ∀ fg ∈ [(Add, fun x y : Int => x + y), (Sub, fun x y : Int => x - y),
        (Mul, fun x y : Int => x * y), (Div, Int.ediv), (Mod, Int.emod), (Exp, bigExp)],
      ∀ (arg0 arg1 : Option String) (r : String),
        fg.1 arg0 arg1 = Outcome.ret (Value.string r) →
        ∃ a b, arg0 = some a ∧ arg1 = some b ∧
          Value.string r = hexValueOf (fg.2 (atob a) (atob b)) := by
  intro fg hfg arg0 arg1 r h
  simp only [List.mem_cons, List.mem_singleton, List.not_mem_nil, or_false] at hfg
  cases arg0 with
  | none =>
    rcases hfg with rfl | rfl | rfl | rfl | rfl | rfl <;>
      simp [Add, Sub, Mul, Div, Mod, Exp, parseBin] at h
  | some a =>
    cases arg1 with
    | none =>
      rcases hfg with rfl | rfl | rfl | rfl | rfl | rfl <;>
        simp [Add, Sub, Mul, Div, Mod, Exp, parseBin] at h
    | some b =>
      refine ⟨a, b, rfl, rfl, ?_⟩
      rcases hfg with rfl | rfl | rfl | rfl | rfl | rfl <;> simp only at h ⊢
      · rw [Add_eq] at h; simpa using h.symm
      · rw [Sub_eq] at h; simpa using h.symm
      · rw [Mul_eq] at h; simpa using h.symm
      · exact Div_string a b r h
      · exact Mod_string a b r h
      · rw [Exp_eq] at h; simpa using h.symm

/-! ## Subscription ids -/

theorem split_unique {α : Type} (x : α) (l1 l2 r1 r2 : List α) (h1 : x ∉ l1) (h2 : x ∉ l2)
    (h : l1 ++ x :: r1 = l2 ++ x :: r2) : l1 = l2 ∧ r1 = r2 := by
  induction l1 generalizing l2 with
  | nil =>
    cases l2 with
    | nil => simpa using h
    | cons b l2 =>
      simp only [List.nil_append, List.cons_append, List.cons.injEq] at h
      exact absurd (h.1 ▸ List.mem_cons_self _ _) h2
  | cons a l1 ih =>
    cases l2 with
    | nil =>
      simp only [List.nil_append, List.cons_append, List.cons.injEq] at h
      exact absurd (h.1 ▸ List.mem_cons_self _ _) h1
    | cons b l2 =>
      simp only [List.cons_append, List.cons.injEq] at h
      have := ih l2 (fun hm => h1 (List.mem_cons_of_mem _ hm))
        (fun hm => h2 (List.mem_cons_of_mem _ hm)) h.2
      exact ⟨by rw [h.1, this.1], this.2⟩

theorem toList_generateId (r s t : String) :
    (events.generateId r s t).toList = r.toList ++ '_' :: (s.toList ++ '_' :: t.toList) := by
  simp [events.generateId, String.toList]

/-! ## Decoding what was encoded -/

theorem char_toNat_valid (c : Char) : c.toNat < 0xD800 ∨ (0xDFFF < c.toNat ∧ c.toNat < 0x110000) := by
  have := c.valid
  simp only [UInt32.isValidChar, Nat.isValidChar] at this
  have e : c.toNat = c.val.toNat := rfl
  omega

/-- Reading back the UTF-8 bytes of a character gives the character and their number. -/
theorem decodeRune_utf8Bytes (c : Char) (rest : List Nat) :
    decodeRune (utf8Bytes c ++ rest) = (c.toNat, (utf8Bytes c).length) := by
  have hv := char_toNat_valid c
  unfold utf8Bytes
  simp only
  split_ifs with h1 h2 h3
  · simp only [decodeRune, List.cons_append, List.nil_append, List.getD_cons_zero, h1, if_true,
      List.length_singleton]
  · simp only [decodeRune, List.cons_append, List.nil_append, List.getD_cons_zero,
      List.getD_cons_succ, isCont, decide_eq_true_eq, List.length_cons, List.length_nil]
    rw [if_neg (by omega), if_pos (by omega)]
    simp only [Prod.mk.injEq, and_true]
    omega
  · simp only [decodeRune, List.cons_append, List.nil_append, List.getD_cons_zero,
      List.getD_cons_succ, isCont, decide_eq_true_eq, List.length_cons, List.length_nil]
    rw [if_neg (by omega), if_neg (by omega), if_pos (by split_ifs <;> omega)]
    simp only [Prod.mk.injEq, and_true]
    omega
  · simp only [decodeRune, List.cons_append, List.nil_append, List.getD_cons_zero,
      List.getD_cons_succ, isCont, decide_eq_true_eq, List.length_cons, List.length_nil]
    rw [if_neg (by omega), if_neg (by omega), if_neg (by omega), if_pos (by split_ifs <;> omega)]
    simp only [Prod.mk.injEq, and_true]
    omega

theorem utf8Bytes_ne_nil (c : Char) : utf8Bytes c ≠ [] := by
  unfold utf8Bytes
  simp only
  split_ifs <;> simp

theorem decodeRunes_flatMap (cs : List Char) : ∀ fuel, cs.length ≤ fuel →
    decodeRunes fuel (cs.flatMap utf8Bytes) = cs := by
  induction cs with
  | nil => intro fuel _; cases fuel <;> rfl
  | cons c cs ih =>
    intro fuel hf
    cases fuel with
    | zero => simp at hf
    | succ fuel =>
      rw [List.flatMap_cons]
      have hd := decodeRune_utf8Bytes c (cs.flatMap utf8Bytes)
      cases hb : utf8Bytes c with
      | nil => exact absurd hb (utf8Bytes_ne_nil c)
      | cons b t =>
        rw [hb] at hd
        simp only [List.cons_append] at hd ⊢
        simp only [decodeRunes, hd, Char.ofNat_toNat, List.cons.injEq, true_and]
        have : (b :: (t ++ cs.flatMap utf8Bytes)).drop (b :: t).length = cs.flatMap utf8Bytes := by
          rw [← List.cons_append, List.drop_left]
        rw [this]
        exact ih fuel (by simpa using hf)

theorem length_le_length_flatMap (cs : List Char) : cs.length ≤ (cs.flatMap utf8Bytes).length := by
  induction cs with
  | nil => simp
  | cons c cs ih =>
    have := utf8Bytes_ne_nil c
    have hl : 0 < (utf8Bytes c).length := List.length_pos.mpr this
    simp only [List.flatMap_cons, List.length_append, List.length_cons]
    omega

/-- The text of the bytes of a string is the string. -/
theorem goString_goBytes (s : String) : goString (goBytes s) = s := by
  unfold goString goBytes
  rw [decodeRunes_flatMap _ _ (length_le_length_flatMap _)]
  rfl

theorem hextable_bytes : ∀ k, k < 16 →
    utf8Bytes (hextable.getD k '0') = [(hextable.getD k '0').toNat] ∧
    fromHexChar (hextable.getD k '0').toNat = some k := by
  decide

theorem shl4_or (a b : Nat) (hb : b < 16) : a <<< 4 ||| b = a * 16 + b := by
  have h := Nat.mul_add_lt_is_or (i := 4) (b := b) (by simpa using hb) a
  rw [Nat.shiftLeft_eq]
  have e : (2 : Nat) ^ 4 = 16 := by norm_num
  rw [e] at h ⊢
  rw [Nat.mul_comm a 16, ← h]

theorem decodePairs_hexPair (v : Nat) (hv : v < 256) (rest : List Nat) :
    decodePairs ((hexPair v).flatMap utf8Bytes ++ rest) =
      (decodePairs rest).map (fun t => v :: t) := by
  obtain ⟨a1, a2⟩ := hextable_bytes (v / 16) (by omega)
  obtain ⟨b1, b2⟩ := hextable_bytes (v % 16) (by omega)
  simp only [hexPair, shr4, and15, List.flatMap_cons, List.flatMap_nil, a1, b1, List.append_nil,
    List.cons_append, List.nil_append, decodePairs, a2, b2]
  have e : (v / 16) <<< 4 ||| v % 16 = v := by
    rw [shl4_or _ _ (by omega)]; omega
  rw [e]
  cases decodePairs rest <;> rfl

theorem decodePairs_encode (bs : List Nat) (h : ∀ v ∈ bs, v < 256) :
    decodePairs ((bs.flatMap hexPair).flatMap utf8Bytes) = some bs := by
  induction bs with
  | nil => rfl
  | cons v r ih =>
    rw [List.flatMap_cons, List.flatMap_append,
      decodePairs_hexPair v (h v (List.mem_cons_self _ _)),
      ih (fun w hw => h w (List.mem_cons_of_mem _ hw))]
    rfl

theorem length_bytes_hex (bs : List Nat) (h : ∀ v ∈ bs, v < 256) :
    ((bs.flatMap hexPair).flatMap utf8Bytes).length = 2 * bs.length := by
  induction bs with
  | nil => rfl
  | cons v r ih =>
    have hv := h v (List.mem_cons_self _ _)
    obtain ⟨a1, -⟩ := hextable_bytes (v / 16) (by omega)
    obtain ⟨b1, -⟩ := hextable_bytes (v % 16) (by omega)
    rw [List.flatMap_cons, List.flatMap_append, List.length_append,
      ih (fun w hw => h w (List.mem_cons_of_mem _ hw))]
    simp only [hexPair, shr4, and15, List.flatMap_cons, List.flatMap_nil, a1, b1,
      List.append_nil, List.length_append, List.length_singleton, List.length_cons,
      List.length_nil]
    omega

/-- Decoding the hex text of a byte sequence gives the byte sequence back. -/
theorem DecodeString_EncodeToString (bs : List Nat) (h : ∀ v ∈ bs, v < 256) :
    DecodeString (goBytes (EncodeToString bs)) = some bs := by
  have hg : goBytes (EncodeToString bs) = (bs.flatMap hexPair).flatMap utf8Bytes := rfl
  rw [hg]
  unfold DecodeString
  rw [length_bytes_hex bs h, if_neg (by omega), decodePairs_encode bs h]

/-- A string that starts with `0x` is no hex text. -/
theorem DecodeString_0x (t : String) : DecodeString (goBytes ("0x" ++ t)) = none := by
  have hg : goBytes ("0x" ++ t) = 48 :: 120 :: t.toList.flatMap utf8Bytes := by
    have : ("0x" ++ t).toList = '0' :: 'x' :: t.toList := by
      cases t; rfl
    unfold goBytes
    rw [this]
    rfl
  rw [hg]
  unfold DecodeString
  split_ifs
  · rfl
  · simp [decodePairs, fromHexChar]

theorem flatMap_replicate_nul (k : Nat) :
    (List.replicate k (Char.ofNat 0)).flatMap utf8Bytes = List.replicate k 0 := by
  induction k with
  | zero => rfl
  | succ k ih =>
    rw [List.replicate_succ, List.flatMap_cons, ih, List.replicate_succ]
    rfl

end Ate

namespace Runtimemanager

/-! ## The loops of `CreateRuntime` -/

theorem foldl_bind_steps {σ Obj : Type} (E : Engine σ Obj) (objs : List (JsObj Obj))
    (rt : Runtime σ Obj) :
    (objs.foldl (fun rt jo => (rt.BindScriptObject E jo.Name jo.Object).1) rt).steps =
        rt.steps ++ objs.flatMap bindSteps ∧
    (objs.foldl (fun rt jo => (rt.BindScriptObject E jo.Name jo.Object).1) rt).vm =
        objs.foldl (fun vm jo => (E.Set vm jo.Name jo.Object).1) rt.vm ∧
    (objs.foldl (fun rt jo => (rt.BindScriptObject E jo.Name jo.Object).1) rt).name = rt.name := by
  induction objs generalizing rt with
  | nil => simp
  | cons jo r ih =>
    obtain ⟨h1, h2, h3⟩ := ih (rt.BindScriptObject E jo.Name jo.Object).1
    simp only [List.foldl_cons, h1, h2, h3, List.flatMap_cons]
    simp [Runtime.BindScriptObject, bindSteps]

theorem foldl_script_steps {σ Obj : Type} (E : Engine σ Obj) (srcs : List String)
    (rt : Runtime σ Obj) :
    (srcs.foldl (fun rt s => (rt.AddScript E s).1) rt).steps =
        rt.steps ++ srcs.flatMap scriptSteps ∧
    (srcs.foldl (fun rt s => (rt.AddScript E s).1) rt).vm =
        srcs.foldl (fun vm s => (E.Run vm s).1) rt.vm ∧
    (srcs.foldl (fun rt s => (rt.AddScript E s).1) rt).name = rt.name := by
  induction srcs generalizing rt with
  | nil => simp
  | cons s r ih =>
    obtain ⟨h1, h2, h3⟩ := ih (rt.AddScript E s).1
    simp only [List.foldl_cons, h1, h2, h3, List.flatMap_cons]
    simp [Runtime.AddScript, scriptSteps]

theorem foldl_register {σ Obj : Type} (regs : List (Registration Obj)) (w : World σ Obj) :
    (regs.foldl register w).rm.apiObjs = w.rm.apiObjs ++ objectsOf regs ∧
    (regs.foldl register w).rm.apiScript = w.rm.apiScript ++ scriptsOf regs ∧
    (regs.foldl register w).rm.runtimes = w.rm.runtimes ∧
    (regs.foldl register w).heap = w.heap := by
  induction regs generalizing w with
  | nil => simp [objectsOf, scriptsOf]
  | cons r rs ih =>
    obtain ⟨h1, h2, h3, h4⟩ := ih (register w r)
    simp only [List.foldl_cons, h1, h2, h3, h4]
    cases r <;> simp [register, RegisterApiObject, RegisterApiScript, objectsOf, scriptsOf]

/-- The runtime `CreateRuntime` builds. -/
theorem CreateRuntime_heap {σ Obj : Type} (E : Engine σ Obj) (w : World σ Obj) (name : String) :
    ∃ rt, (CreateRuntime E w name).1.heap = w.heap ++ [rt] ∧
      (CreateRuntime E w name).2 = w.heap.length ∧
      (CreateRuntime E w name).1.rm.runtimes =
        Function.update w.rm.runtimes name (some w.heap.length) ∧
      (CreateRuntime E w name).1.rm.apiObjs = w.rm.apiObjs ∧
      (CreateRuntime E w name).1.rm.apiScript = w.rm.apiScript ∧
      rt.name = name ∧
      rt.steps = initSteps ++ w.rm.apiObjs.flatMap bindSteps ++
        w.rm.apiScript.flatMap scriptSteps ∧
      rt.vm = w.rm.apiScript.foldl (fun vm s => (E.Run vm s).1)
        (w.rm.apiObjs.foldl (fun vm jo => (E.Set vm jo.Name jo.Object).1)
          (E.Boot E.New name)) := by
  refine ⟨_, rfl, rfl, rfl, rfl, rfl, ?_, ?_, ?_⟩
  · rw [(foldl_script_steps E _ _).2.2, (foldl_bind_steps E _ _).2.2]
    rfl
  · rw [(foldl_script_steps E _ _).1, (foldl_bind_steps E _ _).1]
    simp [Runtime.Init, newRuntime, initSteps]
  · rw [(foldl_script_steps E _ _).2.1, (foldl_bind_steps E _ _).2.1]
    rfl

/-- With an interpreter that binds by name, after a run of `vm.Set` calls every
name set holds the value set last. -/
theorem foldl_set_last {σ Obj : Type} (E : Engine σ Obj) (Get : σ → String → Option Obj)
    (hE : Overwrites E Get) (objs : List (JsObj Obj)) (vm : σ) (n : String) :
    Get (objs.foldl (fun vm jo => (E.Set vm jo.Name jo.Object).1) vm) n =
      match lastRegistered objs n with
      | some v => some v
      | none => Get vm n := by
  induction objs using List.reverseRecOn with
  | nil => rfl
  | append_singleton r jo ih =>
    rw [List.foldl_append]
    simp only [List.foldl_cons, List.foldl_nil, lastRegistered, List.reverse_append,
      List.reverse_cons, List.reverse_nil, List.nil_append, List.singleton_append,
      List.find?_cons]
    by_cases hn : jo.Name = n
    · subst hn
      simp [(hE _ jo.Name jo.Object).1]
    · have hb : (jo.Name == n) = false := by simpa using hn
      rw [(hE _ jo.Name jo.Object).2 n (fun h => hn h.symm), ih]
      simp [hb, lastRegistered]

theorem GetRuntime_eq {σ Obj : Type} (w : World σ Obj) (n : String) :
    GetRuntime w n = w.rm.runtimes n := by
  unfold GetRuntime
  cases w.rm.runtimes n <;> rfl

theorem exampleEngine_overwrites : Overwrites exampleEngine exampleGet := by
  intro vm n v
  refine ⟨by simp [exampleEngine, exampleGet], ?_⟩
  intro m hm
  have : (n == m) = false := by simpa using fun h => hm h.symm
  simp [exampleEngine, exampleGet, List.find?_cons, this]

/-! ## Schedules under the mutex -/

theorem threadSteps_cons_same {Obj : Type} (t : Bool) (e : Step Obj)
    (s : List (Bool × Step Obj)) : threadSteps t ((t, e) :: s) = e :: threadSteps t s := by
  simp [threadSteps]

theorem threadSteps_cons_other {Obj : Type} (t : Bool) (e : Step Obj)
    (s : List (Bool × Step Obj)) : threadSteps t ((!t, e) :: s) = threadSteps t s := by
  cases t <;> simp [threadSteps]

/-- A schedule without steps of thread `t` is the steps of the other thread. -/
theorem only_other {Obj : Type} (t : Bool) (s : List (Bool × Step Obj))
    (h : threadSteps t s = []) : s = onThread (!t) (threadSteps (!t) s) := by
  induction s with
  | nil => rfl
  | cons p s ih =>
    obtain ⟨u, e⟩ := p
    by_cases hu : u = t
    · subst hu
      rw [threadSteps_cons_same] at h
      exact absurd h (by simp)
    · have hu' : u = !t := by cases u <;> cases t <;> simp_all
      subst hu'
      have h' : threadSteps t s = [] := by
        rw [threadSteps_cons_other] at h; exact h
      rw [threadSteps_cons_same, onThread, List.map_cons, ← onThread, ← ih h']

theorem admissible_cons_plain {Obj : Type} (holder : Option Bool) (t : Bool) (e : Step Obj)
    (s : List (Bool × Step Obj)) (h1 : e ≠ Step.lock) (h2 : e ≠ Step.unlock) :
    admissible holder ((t, e) :: s) = admissible holder s := by
  cases e <;> first | exact absurd rfl h1 | exact absurd rfl h2 | rfl

/-- While thread `t` holds the mutex and the other thread has nothing to do but
start with `lock`, the schedule runs thread `t` up to its `unlock` first. -/
theorem holder_runs_first {Obj : Type} (t : Bool) (s : List (Bool × Step Obj)) :
    ∀ body : List (Step Obj), admissible (some t) s = true →
      threadSteps t s = body ++ [Step.unlock] → Step.lock ∉ body → Step.unlock ∉ body →
      (threadSteps (!t) s = [] ∨ ∃ r, threadSteps (!t) s = Step.lock :: r) →
      s = onThread t (body ++ [Step.unlock]) ++ onThread (!t) (threadSteps (!t) s) := by
  induction s with
  | nil =>
    intro body _ h
    simp [threadSteps] at h
  | cons p s ih =>
    obtain ⟨u, e⟩ := p
    intro body ha hb hl hu ho
    by_cases hut : u = t
    · subst hut
      rw [threadSteps_cons_same] at hb
      have hne : (!u) ≠ u := by cases u <;> simp
      have hoth : threadSteps (!u) ((u, e) :: s) = threadSteps (!u) s := by
        have := threadSteps_cons_other (!u) e s
        simpa using this
      rw [hoth] at ho ⊢
      cases body with
      | nil =>
        simp only [List.nil_append, List.cons.injEq] at hb
        obtain ⟨rfl, hnil⟩ := hb
        have := only_other u s hnil
        simp only [onThread, List.map_cons, List.map_nil, List.nil_append, List.singleton_append,
          List.cons.injEq, true_and]
        exact this
      | cons b body' =>
        simp only [List.cons_append, List.cons.injEq] at hb
        obtain ⟨rfl, hb'⟩ := hb
        have h1 : e ≠ Step.lock := fun h => hl (h ▸ List.mem_cons_self _ _)
        have h2 : e ≠ Step.unlock := fun h => hu (h ▸ List.mem_cons_self _ _)
        rw [admissible_cons_plain _ _ _ _ h1 h2] at ha
        have := ih body' ha hb' (fun h => hl (List.mem_cons_of_mem _ h))
          (fun h => hu (List.mem_cons_of_mem _ h)) ho
        simp only [onThread, List.cons_append, List.map_cons, List.cons.injEq, true_and]
        exact this
    · have hu' : u = !t := by cases u <;> cases t <;> simp_all
      subst hu'
      exfalso
      have hsame : threadSteps (!t) ((!t, e) :: s) = e :: threadSteps (!t) s :=
        threadSteps_cons_same _ _ _
      rw [hsame] at ho
      rcases ho with ho | ⟨r, ho⟩
      · simp at ho
      · simp only [List.cons.injEq] at ho
        obtain ⟨rfl, -⟩ := ho
        simp [admissible] at ha

/-- Two operations that each hold the mutex from their first step to their last run
one after the other in every schedule that respects the mutex. -/
theorem guarded_serialize {Obj : Type} (es1 es2 : List (Step Obj))
    (s : List (Bool × Step Obj)) (h1 : Guarded es1) (h2 : Guarded es2)
    (hs1 : threadSteps false s = es1) (hs2 : threadSteps true s = es2)
    (ha : admissible none s = true) :
    s = onThread false es1 ++ onThread true es2 ∨ s = onThread true es2 ++ onThread false es1 := by
  obtain ⟨b1, rfl, hl1, hu1⟩ := h1
  obtain ⟨b2, rfl, hl2, hu2⟩ := h2
  cases s with
  | nil => simp [threadSteps] at hs1
  | cons p s =>
    obtain ⟨u, e⟩ := p
    cases u with
    | false =>
      left
      rw [threadSteps_cons_same] at hs1
      have hoth : threadSteps true ((false, e) :: s) = threadSteps true s :=
        threadSteps_cons_other true e s
      rw [hoth] at hs2
      simp only [List.cons_append, List.cons.injEq] at hs1
      obtain ⟨rfl, hs1⟩ := hs1
      have ha' : admissible (some false) s = true := by simpa [admissible] using ha
      have := holder_runs_first false s b1 ha' hs1 hl1 hu1
        (Or.inr ⟨b2 ++ [Step.unlock], by simpa using hs2⟩)
      simp only [Bool.not_false, hs2] at this
      rw [this]
      simp [onThread]
    | true =>
      right
      rw [threadSteps_cons_same] at hs2
      have hoth : threadSteps false ((true, e) :: s) = threadSteps false s :=
        threadSteps_cons_other false e s
      rw [hoth] at hs1
      simp only [List.cons_append, List.cons.injEq] at hs2
      obtain ⟨rfl, hs2⟩ := hs2
      have ha' : admissible (some true) s = true := by simpa [admissible] using ha
      have := holder_runs_first true s b2 ha' hs2 hl2 hu2
        (Or.inr ⟨b1 ++ [Step.unlock], by simpa using hs1⟩)
      simp only [Bool.not_true, hs1] at this
      rw [this]
      simp [onThread]

theorem guarded_intro {Obj : Type} (body : List (Step Obj)) (hl : Step.lock ∉ body)
    (hu : Step.unlock ∉ body) : Guarded (Step.lock :: body ++ [Step.unlock]) :=
  ⟨body, rfl, hl, hu⟩

theorem LoadScriptFile_guarded {σ Obj : Type} (E : Engine σ Obj) (rt : Runtime σ Obj)
    (fileName : String) :
    ∃ es, (rt.LoadScriptFile E fileName).1.steps = rt.steps ++ es ∧ Guarded es := by
  unfold Runtime.LoadScriptFile
  cases E.ReadFile fileName with
  | error err => exact ⟨_, rfl, guarded_intro [Step.readFile fileName] (by simp) (by simp)⟩
  | ok bytes =>
    exact ⟨_, rfl, guarded_intro [Step.readFile fileName, Step.vmRun bytes] (by simp) (by simp)⟩

theorem LoadScriptFiles_blocks {σ Obj : Type} (E : Engine σ Obj) (files : List String) :
    ∀ rt : Runtime σ Obj, ∃ blocks : List (List (Step Obj)),
      (rt.LoadScriptFiles E files).1.steps = rt.steps ++ blocks.flatMap id ∧
      (∀ b ∈ blocks, Guarded b) ∧ blocks.length ≤ files.length := by
  induction files with
  | nil => intro rt; exact ⟨[], by simp [Runtime.LoadScriptFiles], by simp, by simp⟩
  | cons sf rest ih =>
    intro rt
    obtain ⟨es, hes, hg⟩ := LoadScriptFile_guarded E rt sf
    unfold Runtime.LoadScriptFiles
    simp only
    cases hr : (rt.LoadScriptFile E sf).2 with
    | some err =>
      refine ⟨[es], ?_, ?_, ?_⟩
      · simp [hes]
      · intro b hb; simp at hb; subst hb; exact hg
      · simp
    | none =>
      obtain ⟨blocks, hb, hgs, hlen⟩ := ih (rt.LoadScriptFile E sf).1
      refine ⟨es :: blocks, ?_, ?_, ?_⟩
      · simp only [hb, hes, List.flatMap_cons, id, List.append_assoc]
      · intro b hb'
        rcases List.mem_cons.mp hb' with rfl | h
        · exact hg
        · exact hgs b h
      · simp; omega

end Runtimemanager

namespace Ate

/-! # The claims -/

/-- C1, as amended.  For non-negative `x` and `y` written as 0x-prefixed hex strings
or as decimal strings without a leading zero `a` and `b`, `Add(a,b)` returns a
string and `Sub` of that string and `b` returns the canonical encoding of `x`. -/
theorem add_sub_roundtrip (a b : String) (x y : Nat) (ha : DenotesPlain a x)
    (hb : DenotesPlain b y) :
    ∃ r r', Add (some a) (some b) = Outcome.ret (Value.string r) ∧
      Sub (some r) (some b) = Outcome.ret (Value.string r') ∧ IsCanonicalEncoding r' x := by
  have hxy : (x : Int) + (y : Int) = ((x + y : Nat) : Int) := by push_cast; rfl
  have hsum := atob_of_denotesPlain _ _ (denotesPlain_of_canonical _ _ (canonical_natBytes (x + y)))
  refine ⟨"0x" ++ EncodeToString (natBytes (x + y)), "0x" ++ EncodeToString (natBytes x), ?_, ?_,
    canonical_natBytes x⟩
  · rw [Add_eq, atob_of_denotesPlain a x ha, atob_of_denotesPlain b y hb, hxy, hexValueOf_natCast]
  · rw [Sub_eq, hsum, atob_of_denotesPlain b y hb, ← hexValueOf_natCast]
    congr 2
    push_cast
    omega

/-- C1, witness: 255 as `"255"` and 1 as `"0x01"`. -/
theorem add_sub_roundtrip_witness :
    ∃ r r', Add (some "255") (some "0x01") = Outcome.ret (Value.string r) ∧
      Sub (some r) (some "0x01") = Outcome.ret (Value.string r') ∧ IsCanonicalEncoding r' 255 :=
  add_sub_roundtrip "255" "0x01" 255 1
    (Or.inl ⟨by decide, by decide⟩)
    (Or.inr ⟨['0', '1'], by decide, by decide, by decide⟩)

/-- C1, counterexample.  `"010"` is a valid decimal string denoting 10 and `"0"` one
denoting 0, yet `Sub(Add("010","0"),"0")` is `"0x08"`, which is not the canonical
encoding of 10: the scanner reads a leading `0` as the octal prefix. -/
theorem add_sub_roundtrip_leading_zero :
    Denotes "010" 10 ∧ Denotes "0" 0 ∧
    Add (some "010") (some "0") = Outcome.ret (Value.string "0x08") ∧
    Sub (some "0x08") (some "0") = Outcome.ret (Value.string "0x08") ∧
    ¬ IsCanonicalEncoding "0x08" 10 := by
  refine ⟨Or.inl (by decide), Or.inl (by decide),
    by decide, by decide, ?_⟩
  intro h
  have h8 : IsCanonicalEncoding "0x08" 8 := canonical_natBytes 8
  exact absurd (canonical_value_unique _ _ _ h h8) (by decide)

/-- C2, as amended.  For non-negative `x` and `y` written as 0x-prefixed hex strings
or as decimal strings without a leading zero `a` and `b`, `Add(a,b)`, `Mul(a,b)` and
`Exp(a,b)` return the canonical encodings of `x+y`, `x*y` and `x^y`, whatever
their size. -/
theorem add_mul_exp_exact (a b : String) (x y : Nat) (ha : DenotesPlain a x)
    (hb : DenotesPlain b y) :
    (∃ r, Add (some a) (some b) = Outcome.ret (Value.string r) ∧ IsCanonicalEncoding r (x + y)) ∧
    (∃ r, Mul (some a) (some b) = Outcome.ret (Value.string r) ∧ IsCanonicalEncoding r (x * y)) ∧
    (∃ r, Exp (some a) (some b) = Outcome.ret (Value.string r) ∧
      IsCanonicalEncoding r (x ^ y)) := by
  have hxa := atob_of_denotesPlain a x ha
  have hyb := atob_of_denotesPlain b y hb
  refine ⟨⟨_, ?_, canonical_natBytes (x + y)⟩, ⟨_, ?_, canonical_natBytes (x * y)⟩,
    ⟨_, ?_, canonical_natBytes (x ^ y)⟩⟩
  · rw [Add_eq, hxa, hyb, ← hexValueOf_natCast]
    congr 2
  · rw [Mul_eq, hxa, hyb, ← hexValueOf_natCast]
    congr 2
  · rw [Exp_eq, hxa, hyb, bigExp_natCast, ← hexValueOf_natCast]

/-- C2, witness: 2 as `"0x02"` and 100 as `"100"`; the power `2^100` has 101 bits. -/
theorem add_mul_exp_exact_witness :
    (∃ r, Add (some "0x02") (some "100") = Outcome.ret (Value.string r) ∧
      IsCanonicalEncoding r (2 + 100)) ∧
    (∃ r, Mul (some "0x02") (some "100") = Outcome.ret (Value.string r) ∧
      IsCanonicalEncoding r (2 * 100)) ∧
    (∃ r, Exp (some "0x02") (some "100") = Outcome.ret (Value.string r) ∧
      IsCanonicalEncoding r (2 ^ 100)) :=
  add_mul_exp_exact "0x02" "100" 2 100
    (Or.inr ⟨['0', '2'], by decide, by decide, by decide⟩)
    (Or.inl ⟨by decide, by decide⟩)

/-- C2, counterexample.  `"010"` is a valid decimal string denoting 10 and `"2"` one
denoting 2, yet `Add`, `Mul` and `Exp` return the encodings of `8+2`, `8*2` and
`8^2`, not those of `10+2`, `10*2` and `10^2`. -/
theorem add_mul_exp_leading_zero :
    Denotes "010" 10 ∧ Denotes "2" 2 ∧
    Add (some "010") (some "2") = Outcome.ret (Value.string "0x0a") ∧
    Mul (some "010") (some "2") = Outcome.ret (Value.string "0x10") ∧
    Exp (some "010") (some "2") = Outcome.ret (Value.string "0x40") ∧
    ¬ IsCanonicalEncoding "0x0a" (10 + 2) ∧ ¬ IsCanonicalEncoding "0x10" (10 * 2) ∧
    ¬ IsCanonicalEncoding "0x40" (10 ^ 2) := by
  refine ⟨Or.inl (by decide), Or.inl (by decide),
    by decide, by decide, by decide, ?_, ?_, ?_⟩
  · intro h
    have h' : IsCanonicalEncoding "0x0a" 10 := canonical_natBytes 10
    exact absurd (canonical_value_unique _ _ _ h h') (by decide)
  · intro h
    have h' : IsCanonicalEncoding "0x10" 16 := canonical_natBytes 16
    exact absurd (canonical_value_unique _ _ _ h h') (by decide)
  · intro h
    have h' : IsCanonicalEncoding "0x40" 64 := canonical_natBytes 64
    exact absurd (canonical_value_unique _ _ _ h h') (by decide)

/-- C3.  Whatever string the first argument is, when the second argument scans to
the integer zero `Div` and `Mod` return the NaN value: not a string, not undefined,
and the division is not reached. -/
theorem div_mod_zero_divisor (a b : String) (hb : atob b = 0) :
    Div (some a) (some b) = Outcome.ret Value.NaN ∧
    Mod (some a) (some b) = Outcome.ret Value.NaN := by
  simp [Div, Mod, parseBin, isZero, BZERO, hb]

/-- C3, witness: a first argument that is no number at all, and the divisor `"0x0"`. -/
theorem div_mod_zero_divisor_witness :
    atob "0x0" = 0 ∧
    Div (some "seven") (some "0x0") = Outcome.ret Value.NaN ∧
    Mod (some "seven") (some "0x0") = Outcome.ret Value.NaN :=
  ⟨by decide, div_mod_zero_divisor "seven" "0x0" (by decide)⟩

/-- C4, as amended.  Each of `Add`, `Sub`, `Mul`, `Div`, `Mod`, `Exp` and `Equals`
returns the undefined value exactly when the conversion of one of its arguments to a
string fails.  A string argument is never rejected, well-formed integer or not: the
helper returns the value computed from the two integers the scan leaves in its
operands, a hex string from `Add`, `Sub`, `Mul` and `Exp`, NaN or a hex string from
`Div` and `Mod`, a boolean from `Equals`.  The scan leaves 0 for `"zz"` and for the
empty string and 12 for `"12abc"`. -/
theorem undefined_iff_conversion_fails :
    (∀ f ∈ [Add, Sub, Mul, Div, Mod, Exp, Equals], ∀ arg0 arg1 : Option String,
      f arg0 arg1 = Outcome.ret Value.undefined ↔ (arg0 = none ∨ arg1 = none)) ∧
    (∀ a b : String,
      Add (some a) (some b) = Outcome.ret (hexValueOf (atob a + atob b)) ∧
      Sub (some a) (some b) = Outcome.ret (hexValueOf (atob a - atob b)) ∧
      Mul (some a) (some b) = Outcome.ret (hexValueOf (atob a * atob b)) ∧
      Div (some a) (some b) =
        (if atob b = 0 then Outcome.ret Value.NaN
         else Outcome.ret (hexValueOf (Int.ediv (atob a) (atob b)))) ∧
      Mod (some a) (some b) =
        (if atob b = 0 then Outcome.ret Value.NaN
         else Outcome.ret (hexValueOf (Int.emod (atob a) (atob b)))) ∧
      Exp (some a) (some b) = Outcome.ret (hexValueOf (bigExp (atob a) (atob b))) ∧
      Equals (some a) (some b) = Outcome.ret (Value.boolean (decide (atob a = atob b)))) ∧
    atob "zz" = 0 ∧ atob "" = 0 ∧ atob "12abc" = 12 := by
  refine ⟨?_, ?_, by decide, by decide, by decide⟩
  · intro f hf arg0 arg1
    simp only [List.mem_cons, List.mem_singleton, List.not_mem_nil, or_false] at hf
    cases arg0 with
    | none =>
      rcases hf with rfl | rfl | rfl | rfl | rfl | rfl | rfl <;>
        simp [Add, Sub, Mul, Div, Mod, Exp, Equals, parseBin]
    | some a =>
      cases arg1 with
      | none =>
        rcases hf with rfl | rfl | rfl | rfl | rfl | rfl | rfl <;>
          simp [Add, Sub, Mul, Div, Mod, Exp, Equals, parseBin]
      | some b =>
        rcases hf with rfl | rfl | rfl | rfl | rfl | rfl | rfl
        · simp [Add, parseBin, hexValueOf]
        · simp [Sub, parseBin, hexValueOf]
        · simp [Mul, parseBin, hexValueOf]
        · by_cases hz : atob b = 0
          · simp [Div, parseBin, isZero, BZERO, hz]
          · simp [Div, parseBin, isZero, BZERO, hz, bigDiv, hexValueOf]
        · by_cases hz : atob b = 0
          · simp [Mod, parseBin, isZero, BZERO, hz]
          · simp [Mod, parseBin, isZero, BZERO, hz, bigMod, hexValueOf]
        · simp [Exp, parseBin, hexValueOf]
        · simp [Equals, parseBin]
  · intro a b
    refine ⟨Add_eq a b, Sub_eq a b, Mul_eq a b, ?_, ?_, Exp_eq a b, by simp [Equals, parseBin]⟩
    · by_cases hz : atob b = 0
      · simp [Div, parseBin, isZero, BZERO, hz]
      · simp [Div, parseBin, isZero, BZERO, hz, bigDiv]
    · by_cases hz : atob b = 0
      · simp [Mod, parseBin, isZero, BZERO, hz]
      · simp [Mod, parseBin, isZero, BZERO, hz, bigMod]

/-- C4, counterexample.  `"zz"`, the empty string and `"12abc"` are neither plain
decimal nor 0x-prefixed hex, yet the helpers return computed values for them, not
the undefined value. -/
theorem malformed_operand_is_computed :
    (∀ x, ¬ Denotes "zz" x) ∧ (∀ x, ¬ Denotes "" x) ∧ (∀ x, ¬ Denotes "12abc" x) ∧
    Add (some "zz") (some "1") = Outcome.ret (Value.string "0x01") ∧
    Sub (some "zz") (some "1") = Outcome.ret (Value.string "0x01") ∧
    Mul (some "zz") (some "1") = Outcome.ret (Value.string "0x") ∧
    Div (some "zz") (some "1") = Outcome.ret (Value.string "0x") ∧
    Mod (some "zz") (some "1") = Outcome.ret (Value.string "0x") ∧
    Exp (some "zz") (some "1") = Outcome.ret (Value.string "0x") ∧
    Equals (some "zz") (some "0") = Outcome.ret (Value.boolean true) ∧
    Add (some "") (some "") = Outcome.ret (Value.string "0x") ∧
    Div (some "1") (some "zz") = Outcome.ret Value.NaN ∧
    Add (some "12abc") (some "1") = Outcome.ret (Value.string "0x0d") ∧
    Div (some "1") (some "12abc") = Outcome.ret (Value.string "0x") := by
  have hno : ∀ (s : String) (x : Nat), (¬ ∀ c ∈ s.toList, isDecDigit c = true) →
      s.toList.head? ≠ some '0' → ¬ Denotes s x := by
    intro s x hd hh h
    rcases h with h | ⟨ds, h, -⟩
    · exact hd h.2.1
    · rw [h] at hh
      exact hh rfl
  refine ⟨fun x => ?_, fun x => ?_, fun x => hno _ x (by decide) (by decide),
    by decide, by decide, by decide, by decide, by decide, by decide, by decide, by decide,
    by decide, by decide, by decide⟩
  · exact hno _ x (by decide) (by decide)
  · rintro (h | ⟨ds, h, -⟩)
    · exact h.1 rfl
    · exact absurd (congrArg List.length h) (by simp)

/-- C5, as amended.  For non-negative `x < y` written as 0x-prefixed hex strings or
as decimal strings without a leading zero `a` and `b`, `Sub(a,b)` returns the
canonical encoding of the magnitude `y - x`, without any sign, and `Sub(b,a)` returns
the same string. -/
theorem sub_negative_magnitude (a b : String) (x y : Nat) (ha : DenotesPlain a x)
    (hb : DenotesPlain b y) (hxy : x < y) :
    ∃ r, Sub (some a) (some b) = Outcome.ret (Value.string r) ∧ IsCanonicalEncoding r (y - x) ∧
      Sub (some b) (some a) = Outcome.ret (Value.string r) := by
  have hxa := atob_of_denotesPlain a x ha
  have hyb := atob_of_denotesPlain b y hb
  have h1 : (y : Int) - (x : Int) = ((y - x : Nat) : Int) := by omega
  have h2 : (x : Int) - (y : Int) = -((y - x : Nat) : Int) := by omega
  refine ⟨_, ?_, canonical_natBytes (y - x), ?_⟩
  · rw [Sub_eq, hxa, hyb, h2, hexValueOf_neg, hexValueOf_natCast]
  · rw [Sub_eq, hxa, hyb, h1, hexValueOf_natCast]

/-- C5, witness: 255 as `"0xff"` and 300 as `"300"`. -/
theorem sub_negative_magnitude_witness :
    ∃ r, Sub (some "0xff") (some "300") = Outcome.ret (Value.string r) ∧
      IsCanonicalEncoding r (300 - 255) ∧
      Sub (some "300") (some "0xff") = Outcome.ret (Value.string r) :=
  sub_negative_magnitude "0xff" "300" 255 300
    (Or.inr ⟨['f', 'f'], by decide, by decide, by decide⟩)
    (Or.inl ⟨by decide, by decide⟩) (by decide)

/-- C5, counterexample.  `"010"` is a valid decimal string denoting 10 and `"12"` one
denoting 12, yet `Sub("010","12")` is the encoding of 4, not of `12 - 10`. -/
theorem sub_magnitude_leading_zero :
    Denotes "010" 10 ∧ Denotes "12" 12 ∧
    Sub (some "010") (some "12") = Outcome.ret (Value.string "0x04") ∧
    ¬ IsCanonicalEncoding "0x04" (12 - 10) := by
  refine ⟨Or.inl (by decide), Or.inl (by decide), by decide, ?_⟩
  intro h
  have h' : IsCanonicalEncoding "0x04" 4 := canonical_natBytes 4
  exact absurd (canonical_value_unique _ _ _ h h') (by decide)

/-- C6.  For every string `x`, `IsZero(x)` is the boolean telling whether `x` is
literally `"0"`, `"0x"` or `"0x0"`; `"0x00"`, `"00"` and the empty string give false
although as numbers they scan to zero. -/
theorem IsZero_literal_match :
    (∀ x : String, IsZero (some x) =
      Outcome.ret (Value.boolean (decide (x = "0" ∨ x = "0x" ∨ x = "0x0")))) ∧
    IsZero (some "0x00") = Outcome.ret (Value.boolean false) ∧
    IsZero (some "00") = Outcome.ret (Value.boolean false) ∧
    IsZero (some "") = Outcome.ret (Value.boolean false) ∧
    atob "0x00" = 0 ∧ atob "00" = 0 ∧ atob "" = 0 := by
  refine ⟨?_, by decide, by decide, by decide, by decide, by decide, by decide⟩
  intro x
  simp only [IsZero, Outcome.ret.injEq, Value.boolean.injEq]
  by_cases h1 : x = "0" <;> by_cases h2 : x = "0x" <;> by_cases h3 : x = "0x0" <;>
    simp [h1, h2, h3]

/-- C7.  For every string `s` of `n` bytes, `StringToHex(s)` is `0x` followed by the
lowercase hex of `32 - n` zero bytes (none when `n >= 32`) followed by the bytes of
`s`; it has `2 + 2 * max 32 n` characters; from 32 bytes on nothing is added or cut;
and `StringToHex("")` is `0x` followed by 64 zeros, 66 characters. -/
theorem StringToHex_padded :
    (∀ s : String, ∃ r, StringToHex (some s) = Outcome.ret (Value.string r) ∧
      r.toList = '0' :: 'x' ::
        lowerHex (List.replicate (32 - (goBytes s).length) 0 ++ goBytes s) ∧
      r.length = 2 + 2 * max 32 (goBytes s).length ∧
      (32 ≤ (goBytes s).length → r.toList = '0' :: 'x' :: lowerHex (goBytes s))) ∧
    StringToHex (some "") = Outcome.ret (Value.string ("0x" ++ String.mk (List.replicate 64 '0'))) ∧
    ("0x" ++ String.mk (List.replicate 64 '0')).length = 66 := by
  refine ⟨?_, by rfl, by rfl⟩
  intro s
  have hlt := goBytes_lt s
  by_cases hn : 32 > (goBytes s).length
  · have hpad : ∀ v ∈ List.replicate (32 - (goBytes s).length) 0 ++ goBytes s, v < 256 := by
      intro v hv
      rw [List.mem_append] at hv
      rcases hv with hv | hv
      · rw [List.eq_of_mem_replicate hv]; omega
      · exact hlt v hv
    refine ⟨"0x" ++ EncodeToString (List.replicate (32 - (goBytes s).length) 0 ++ goBytes s),
      by simp only [StringToHex, hn, if_true], ?_, ?_, ?_⟩
    · rw [toList_hexString, flatMap_hexPair_eq_lowerHex _ hpad]
    · rw [length_hexString, List.length_append, List.length_replicate]
      omega
    · intro h; omega
  · have h0 : 32 - (goBytes s).length = 0 := by omega
    refine ⟨"0x" ++ EncodeToString (goBytes s),
      by simp only [StringToHex, hn, if_false], ?_, ?_, ?_⟩
    · rw [toList_hexString, flatMap_hexPair_eq_lowerHex _ hlt, h0]
      rfl
    · rw [length_hexString]
      omega
    · intro _
      rw [toList_hexString, flatMap_hexPair_eq_lowerHex _ hlt]

/-- C8.  `SHA3("0x")` returns `0x` followed by the hex of the digest of the empty
byte string, but `SHA3("")` does not return: the test `prm[1] == 'x'` indexes past
the end of the empty string and the function panics. -/
theorem SHA3_empty_argument_faults (keccak256 : List Nat → List Nat) :
    SHA3 keccak256 (some "") = Outcome.fault ∧
    SHA3 keccak256 (some "0x") =
      Outcome.ret (Value.string ("0x" ++ EncodeToString (keccak256 []))) := by
  exact ⟨rfl, rfl⟩

/-- C9.  A one-character argument makes `SHA3` panic, and a two-character prefix
other than `0x` whose second character is `x` is stripped as well: `SHA3("zx00")`
is the digest of the single byte 0 although `"zx00"` is no hex string. -/
theorem SHA3_strip_test_unguarded (keccak256 : List Nat → List Nat) :
    SHA3 keccak256 (some "7") = Outcome.fault ∧
    DecodeString (goBytes "zx00") = none ∧
    SHA3 keccak256 (some "zx00") =
      Outcome.ret (Value.string ("0x" ++ EncodeToString (keccak256 [0]))) := by
  exact ⟨rfl, by decide, rfl⟩

end Ate

namespace Runtimemanager

/-- C10.  When `objName` resolves and the method throws, `CallFuncOnObj` returns the
pair `(nil, nil)`: the error handed back is the (absent) error of `vm.Get`, not the
error of the call.  `CallFunc` in the same situation returns the call's error. -/
theorem CallFuncOnObj_throw_is_nil_nil {V G : Type} (ob val : V) (thrown : String)
    (call : String → List (List G) → V × Option String) (exp : V → G × Option String)
    (callOn : V → String → List G → V × Option String)
    (get : String → V × Option String)
    (objName funcName : String) (param : List G) :
    CallFuncOnObj
      { Get := fun _ => (ob, none), CallOn := fun _ _ _ => (val, some thrown),
        Call := call, Export := exp } objName funcName param = (none, none) ∧
    CallFunc
      { Get := get, CallOn := callOn, Call := fun _ _ => (val, some thrown),
        Export := exp } funcName param = (none, some thrown) := by
  exact ⟨rfl, rfl⟩


/-- C11.  After any sequence of `RegisterApiObject` / `RegisterApiScript` calls,
`CreateRuntime(name)` returns a runtime on which exactly these steps were taken, in
this order: `Init`, then one bind for every registered default object in registration
order, then one run for every registered default script in registration order,
whether or not an earlier bind or script failed.  Its interpreter state is the
result of these calls, and when the interpreter binds by name each registered name
holds, after the binds, the value registered last under it. -/
theorem CreateRuntime_replays_defaults {σ Obj : Type} (E : Engine σ Obj) (w0 : World σ Obj)
    (regs : List (Registration Obj)) (name : String) :
    ∃ rt, (CreateRuntime E (regs.foldl register w0) name).1.heap[
        (CreateRuntime E (regs.foldl register w0) name).2]? = some rt ∧
      rt.steps = initSteps ++ (w0.rm.apiObjs ++ objectsOf regs).flatMap bindSteps ++
        (w0.rm.apiScript ++ scriptsOf regs).flatMap scriptSteps ∧
      rt.vm = (w0.rm.apiScript ++ scriptsOf regs).foldl (fun vm s => (E.Run vm s).1)
        ((w0.rm.apiObjs ++ objectsOf regs).foldl (fun vm jo => (E.Set vm jo.Name jo.Object).1)
          (E.Boot E.New name)) ∧
      ∀ Get, Overwrites E Get → ∀ n v,
        lastRegistered (w0.rm.apiObjs ++ objectsOf regs) n = some v →
        Get ((w0.rm.apiObjs ++ objectsOf regs).foldl
          (fun vm jo => (E.Set vm jo.Name jo.Object).1) (E.Boot E.New name)) n = some v := by
  obtain ⟨rt, hh, hp, -, -, -, -, hs, hv⟩ := CreateRuntime_heap E (regs.foldl register w0) name
  obtain ⟨ho, hsc, -, -⟩ := foldl_register regs w0
  rw [ho, hsc] at hs hv
  refine ⟨rt, ?_, hs, hv, ?_⟩
  · rw [hh, hp]
    exact List.getElem?_concat_length _ _
  · intro Get hE n v hl
    rw [foldl_set_last E Get hE, hl]

/-- C11, witness: two objects registered under the same name, and a script that
fails registered before one that does not. -/
theorem CreateRuntime_replays_defaults_witness :
    ∃ rt, (CreateRuntime exampleEngine
        ([Registration.object "x" 1, Registration.script "throw 1", Registration.object "x" 2,
          Registration.script "var a"].foldl register (NewRuntimeManager _ Nat)) "r").1.heap[0]?
        = some rt ∧
      rt.steps = initSteps ++
        [Step.lock, Step.vmSet "x" 1, Step.unlock, Step.lock, Step.vmSet "x" 2, Step.unlock,
          Step.lock, Step.vmRun "throw 1", Step.unlock,
          Step.lock, Step.vmRun "var a", Step.unlock] ∧
      rt.vm.2 = ["throw 1", "var a"] ∧
      exampleGet rt.vm "x" = some 2 := by
  obtain ⟨rt, h1, h2, h3, h4⟩ := CreateRuntime_replays_defaults exampleEngine
    (NewRuntimeManager _ Nat)
    [Registration.object "x" 1, Registration.script "throw 1", Registration.object "x" 2,
      Registration.script "var a"] "r"
  have h5 := h4 exampleGet exampleEngine_overwrites "x" 2 (by decide)
  refine ⟨rt, h1, h2, ?_, ?_⟩
  · rw [h3]; rfl
  · rw [h3]; exact h5

/-- C12.  Right after `CreateRuntime(n)`, `GetRuntime(n)` is the runtime
`CreateRuntime` returned, a new one named `n`; `GetRuntime(m)` for every other name
is what it was; every runtime that existed before, one stored under `n` included, is
as it was (nothing is shut down); and `GetRuntime` of a name the map does not hold
is `nil`. -/
theorem GetRuntime_after_CreateRuntime {σ Obj : Type} (E : Engine σ Obj) (w : World σ Obj)
    (n : String) :
    GetRuntime (CreateRuntime E w n).1 n = some (CreateRuntime E w n).2 ∧
    (∃ rt, (CreateRuntime E w n).1.heap[(CreateRuntime E w n).2]? = some rt ∧ rt.name = n) ∧
    w.heap[(CreateRuntime E w n).2]? = none ∧
    (∀ m, m ≠ n → GetRuntime (CreateRuntime E w n).1 m = GetRuntime w m) ∧
    (∀ (q : Nat) (rt : Runtime σ Obj), w.heap[q]? = some rt →
      (CreateRuntime E w n).1.heap[q]? = some rt) ∧
    (∀ m, w.rm.runtimes m = none → GetRuntime w m = none) ∧
    (∀ m, GetRuntime (NewRuntimeManager σ Obj) m = none) := by
  obtain ⟨rt, hh, hp, hr, -, -, hn, -, -⟩ := CreateRuntime_heap E w n
  refine ⟨?_, ⟨rt, ?_, hn⟩, ?_, ?_, ?_, ?_, ?_⟩
  · rw [GetRuntime_eq, hr, hp]; simp
  · rw [hh, hp]; exact List.getElem?_concat_length _ _
  · rw [hp]; simp
  · intro m hm
    rw [GetRuntime_eq, GetRuntime_eq, hr, Function.update_noteq hm]
  · intro q rt' hq
    have hlt : q < w.heap.length := by
      by_contra h
      rw [List.getElem?_eq_none (by omega)] at hq
      exact absurd hq (by simp)
    rw [hh, List.getElem?_append_left hlt, hq]
  · intro m hm
    rw [GetRuntime_eq, hm]
  · intro m; rfl

/-- C13.  `RemoveRuntime(n)` changes nothing when no runtime is stored under `n`.
When one is stored, at address `p`, afterwards `GetRuntime(n)` is `nil`, every other
name and both default lists are as before, the runtime at `p` has taken exactly one
more step, the `Shutdown`, and every other runtime is as it was. -/
theorem RemoveRuntime_effect {σ Obj : Type} (w : World σ Obj) (n : String) :
    (GetRuntime w n = none → RemoveRuntime w n = w) ∧
    (∀ p, GetRuntime w n = some p →
      GetRuntime (RemoveRuntime w n) n = none ∧
      (∀ m, m ≠ n → GetRuntime (RemoveRuntime w n) m = GetRuntime w m) ∧
      (RemoveRuntime w n).rm.apiObjs = w.rm.apiObjs ∧
      (RemoveRuntime w n).rm.apiScript = w.rm.apiScript ∧
      (RemoveRuntime w n).heap.length = w.heap.length ∧
      (∀ rt, w.heap[p]? = some rt →
        (RemoveRuntime w n).heap[p]? =
          some { vm := rt.vm, name := rt.name, steps := rt.steps ++ [Step.shutdown] }) ∧
      (∀ q : Nat, q ≠ p → (RemoveRuntime w n).heap[q]? = w.heap[q]?)) := by
  constructor
  · intro h
    rw [GetRuntime_eq] at h
    simp [RemoveRuntime, h]
  · intro p h
    rw [GetRuntime_eq] at h
    have hr : RemoveRuntime w n =
        { rm := { w.rm with runtimes := Function.update w.rm.runtimes n none }
          heap := w.heap.modify Runtime.Shutdown p } := by
      simp [RemoveRuntime, h]
    rw [hr]
    refine ⟨?_, ?_, rfl, rfl, ?_, ?_, ?_⟩
    · rw [GetRuntime_eq]; simp
    · intro m hm
      rw [GetRuntime_eq, GetRuntime_eq]
      exact Function.update_noteq hm _ _
    · simp
    · intro rt hrt
      simp [List.getElem?_modify_eq, hrt, Runtime.Shutdown]
    · intro q hq
      simp [List.getElem?_modify_ne _ _ (Ne.symm hq)]

/-- C14.  `RegisterApiObject(name, value)` adds the one entry `(name, value)` after
the last of the default objects and `RegisterApiScript(source)` adds the one entry
`source` after the last of the default scripts; each leaves the other list, the map of
runtimes and every existing runtime as they were; a runtime created afterwards
takes the bind, or the run, of the new entry after those of the earlier entries. -/
theorem Register_appends {σ Obj : Type} (E : Engine σ Obj) (w : World σ Obj)
    (objectname : String) (api : Obj) (script : String) (n : String) :
    (RegisterApiObject w objectname api).rm.apiObjs =
      w.rm.apiObjs ++ [{ Name := objectname, Object := api }] ∧
    (RegisterApiObject w objectname api).rm.apiScript = w.rm.apiScript ∧
    (RegisterApiObject w objectname api).rm.runtimes = w.rm.runtimes ∧
    (RegisterApiObject w objectname api).heap = w.heap ∧
    (RegisterApiScript w script).rm.apiScript = w.rm.apiScript ++ [script] ∧
    (RegisterApiScript w script).rm.apiObjs = w.rm.apiObjs ∧
    (RegisterApiScript w script).rm.runtimes = w.rm.runtimes ∧
    (RegisterApiScript w script).heap = w.heap ∧
    (∃ rt, (CreateRuntime E (RegisterApiObject w objectname api) n).1.heap[w.heap.length]?
        = some rt ∧
      rt.steps = initSteps ++ w.rm.apiObjs.flatMap bindSteps ++
        [Step.lock, Step.vmSet objectname api, Step.unlock] ++
        w.rm.apiScript.flatMap scriptSteps) ∧
    (∃ rt, (CreateRuntime E (RegisterApiScript w script) n).1.heap[w.heap.length]? = some rt ∧
      rt.steps = initSteps ++ w.rm.apiObjs.flatMap bindSteps ++
        w.rm.apiScript.flatMap scriptSteps ++ [Step.lock, Step.vmRun script, Step.unlock]) := by
  refine ⟨rfl, rfl, rfl, rfl, rfl, rfl, rfl, rfl, ?_, ?_⟩
  · obtain ⟨rt, hh, -, -, -, -, -, hs, -⟩ := CreateRuntime_heap E (RegisterApiObject w objectname api) n
    refine ⟨rt, ?_, ?_⟩
    · rw [hh]; exact List.getElem?_concat_length _ _
    · rw [hs]; simp [RegisterApiObject, bindSteps]
  · obtain ⟨rt, hh, -, -, -, -, -, hs, -⟩ := CreateRuntime_heap E (RegisterApiScript w script) n
    refine ⟨rt, ?_, ?_⟩
    · rw [hh]; exact List.getElem?_concat_length _ _
    · rw [hs]; simp [RegisterApiScript, scriptSteps]

end Runtimemanager

namespace Ate

/-- C15, as amended.  The id is `RuntimeId + "_" + source + "_" + eventType`, and for
runtime names and sources without the character `_` two triples have the same id
exactly when they are the same triple. -/
theorem generateId_encodes_triple (r s t r' s' t' : String) (hr : '_' ∉ r.toList)
    (hs : '_' ∉ s.toList) (hr' : '_' ∉ r'.toList) (hs' : '_' ∉ s'.toList) :
    events.generateId r s t = r ++ "_" ++ s ++ "_" ++ t ∧
    (events.generateId r s t = events.generateId r' s' t' ↔ (r = r' ∧ s = s' ∧ t = t')) := by
  refine ⟨rfl, ?_, ?_⟩
  · intro h
    have hl := congrArg String.toList h
    rw [toList_generateId, toList_generateId] at hl
    obtain ⟨h1, h2⟩ := split_unique '_' _ _ _ _ hr hr' hl
    obtain ⟨h3, h4⟩ := split_unique '_' _ _ _ _ hs hs' h2
    exact ⟨string_eq_of_toList _ _ h1, string_eq_of_toList _ _ h3, string_eq_of_toList _ _ h4⟩
  · rintro ⟨rfl, rfl, rfl⟩
    rfl

/-- C15, witness: the triples `("rt", "monk", "newBlock")` and `("rt", "monk", "newTx")`. -/
theorem generateId_encodes_triple_witness :
    events.generateId "rt" "monk" "newBlock" = "rt" ++ "_" ++ "monk" ++ "_" ++ "newBlock" ∧
    (events.generateId "rt" "monk" "newBlock" = events.generateId "rt" "monk" "newTx" ↔
      ("rt" = "rt" ∧ "monk" = "monk" ∧ "newBlock" = "newTx")) :=
  generateId_encodes_triple "rt" "monk" "newBlock" "rt" "monk" "newTx"
    (by decide) (by decide) (by decide) (by decide)

/-- C15, counterexample.  The different triples `("a", "b_c", "d")` and
`("a_b", "c", "d")` get the same id `"a_b_c_d"`. -/
theorem generateId_collision :
    events.generateId "a" "b_c" "d" = "a_b_c_d" ∧
    events.generateId "a_b" "c" "d" = "a_b_c_d" ∧
    ("a", "b_c", "d") ≠ ("a_b", "c", "d") := by
  decide

end Ate

namespace Runtimemanager

/-- C16, as amended.  Each of `LoadScriptFile`, `BindScriptObject`, `AddScript`,
`CallFunc` and `CallFuncOnObj` takes the mutex of the runtime as its first step and
releases it as its last, with every interpreter access in between; `LoadScriptFiles`
does so once for every file it loads; and two operations that hold the mutex in
this way, run by two threads, are never interleaved: every schedule that respects
the mutex runs the whole of one before the whole of the other. -/
theorem locked_operations_serialize {σ Obj V G : Type} (E : Engine σ Obj) (rt : Runtime σ Obj)
    (vm : Otto V G) (fileName name script objName funcName : String) (val : Obj)
    (param : List G) (files : List String) :
    (∃ es, (rt.LoadScriptFile E fileName).1.steps = rt.steps ++ es ∧ Guarded es) ∧
    (∃ es, (rt.BindScriptObject E name val).1.steps = rt.steps ++ es ∧ Guarded es) ∧
    (∃ es, (rt.AddScript E script).1.steps = rt.steps ++ es ∧ Guarded es) ∧
    Guarded (CallFuncSteps Obj vm funcName param) ∧
    Guarded (CallFuncOnObjSteps Obj vm objName funcName param) ∧
    (∃ blocks : List (List (Step Obj)),
      (rt.LoadScriptFiles E files).1.steps = rt.steps ++ blocks.flatMap id ∧
      (∀ b ∈ blocks, Guarded b) ∧ blocks.length ≤ files.length) ∧
    (∀ (es1 es2 : List (Step Obj)) (s : List (Bool × Step Obj)), Guarded es1 → Guarded es2 →
      threadSteps false s = es1 → threadSteps true s = es2 → admissible none s = true →
      s = onThread false es1 ++ onThread true es2 ∨
        s = onThread true es2 ++ onThread false es1) := by
  refine ⟨LoadScriptFile_guarded E rt fileName,
    ⟨_, rfl, guarded_intro [Step.vmSet name val] (by simp) (by simp)⟩,
    ⟨_, rfl, guarded_intro [Step.vmRun script] (by simp) (by simp)⟩, ?_, ?_,
    LoadScriptFiles_blocks E files rt,
    fun es1 es2 s h1 h2 hs1 hs2 ha => guarded_serialize es1 es2 s h1 h2 hs1 hs2 ha⟩
  · unfold CallFuncSteps
    simp only
    split_ifs
    · exact guarded_intro [Step.vmCall funcName] (by simp) (by simp)
    · exact guarded_intro [Step.vmCall funcName, Step.vmExport] (by simp) (by simp)
  · unfold CallFuncOnObjSteps
    simp only
    split_ifs
    · exact guarded_intro [Step.vmGet objName] (by simp) (by simp)
    · exact guarded_intro [Step.vmGet objName, Step.vmCall funcName] (by simp) (by simp)
    · exact guarded_intro [Step.vmGet objName, Step.vmCall funcName, Step.vmExport]
        (by simp) (by simp)

/-- C16, witness: an `AddScript` and a `BindScriptObject` on two threads, in the
schedule that runs the `AddScript` first. -/
theorem locked_operations_serialize_witness :
    onThread false [Step.lock, Step.vmRun "s", Step.unlock] ++
        onThread true [Step.lock, Step.vmSet "x" (1 : Nat), Step.unlock] =
      onThread false [Step.lock, Step.vmRun "s", Step.unlock] ++
        onThread true [Step.lock, Step.vmSet "x" 1, Step.unlock] ∨
    onThread false [Step.lock, Step.vmRun "s", Step.unlock] ++
        onThread true [Step.lock, Step.vmSet "x" (1 : Nat), Step.unlock] =
      onThread true [Step.lock, Step.vmSet "x" 1, Step.unlock] ++
        onThread false [Step.lock, Step.vmRun "s", Step.unlock] :=
  (locked_operations_serialize exampleEngine (newRuntime exampleEngine "r")
    (V := Nat) (G := Nat)
    { Get := fun _ => (0, none), CallOn := fun _ _ _ => (0, none), Call := fun _ _ => (0, none),
      Export := fun _ => (0, none) } "f" "x" "s" "o" "g" 1 [] []).2.2.2.2.2.2
    [Step.lock, Step.vmRun "s", Step.unlock] [Step.lock, Step.vmSet "x" 1, Step.unlock]
    (onThread false [Step.lock, Step.vmRun "s", Step.unlock] ++
      onThread true [Step.lock, Step.vmSet "x" 1, Step.unlock])
    (guarded_intro [Step.vmRun "s"] (by decide) (by decide))
    (guarded_intro [Step.vmSet "x" 1] (by decide) (by decide))
    (by decide) (by decide) (by decide)

/-- C16, counterexample.  `LoadScriptFiles("a", "b")` releases the mutex between its
two files, so a concurrent `AddScript("s")` can run between them: the schedule
below respects the mutex, its two threads take exactly the steps of the two
operations, and it is neither operation followed by the other.  `Init` takes no
`lock` step at all, and its interpreter accesses can fall inside the
critical section of a concurrent `AddScript`. -/
theorem LoadScriptFiles_and_Init_interleave :
    ((newRuntime exampleEngine "r").LoadScriptFiles exampleEngine ["a", "b"]).1.steps =
      [Step.lock, Step.readFile "a", Step.vmRun "a", Step.unlock,
        Step.lock, Step.readFile "b", Step.vmRun "b", Step.unlock] ∧
    ((newRuntime exampleEngine "r").AddScript exampleEngine "s").1.steps =
      [Step.lock, Step.vmRun "s", Step.unlock] ∧
    (∃ s : List (Bool × Step Nat),
      s = onThread false [Step.lock, Step.readFile "a", Step.vmRun "a", Step.unlock] ++
        onThread true [Step.lock, Step.vmRun "s", Step.unlock] ++
        onThread false [Step.lock, Step.readFile "b", Step.vmRun "b", Step.unlock] ∧
      threadSteps false s =
        ((newRuntime exampleEngine "r").LoadScriptFiles exampleEngine ["a", "b"]).1.steps ∧
      threadSteps true s = ((newRuntime exampleEngine "r").AddScript exampleEngine "s").1.steps ∧
      admissible none s = true ∧
      s ≠ onThread false (threadSteps false s) ++ onThread true (threadSteps true s) ∧
      s ≠ onThread true (threadSteps true s) ++ onThread false (threadSteps false s)) ∧
    ((newRuntime exampleEngine "r").Init exampleEngine "r").steps =
      [Step.setHost "events_subscribe", Step.setHost "events_unsubscribe",
        Step.setHost "RuntimeId", Step.bindDefaults] ∧
    (∃ s : List (Bool × Step Nat),
      s = [(true, Step.lock), (false, Step.setHost "events_subscribe"),
        (false, Step.setHost "events_unsubscribe"), (true, Step.vmRun "s"),
        (false, Step.setHost "RuntimeId"), (false, Step.bindDefaults), (true, Step.unlock)] ∧
      threadSteps false s = ((newRuntime exampleEngine "r").Init exampleEngine "r").steps ∧
      threadSteps true s = ((newRuntime exampleEngine "r").AddScript exampleEngine "s").1.steps ∧
      admissible none s = true) := by
  refine ⟨by decide, by decide, ⟨_, rfl, by decide, by decide, by decide, by decide, by decide⟩,
    by decide, ⟨_, rfl, by decide, by decide, by decide⟩⟩

/-- C17.  With the bootstrap script as the specification describes it: after
`events.subscribe(source, type, target, cb)`, for every event `e` with that source
and that type whose serialized text parses back to `e`, `Post(e)` on the
subscription registered calls `events.post` with the subscription id and the
serialized event, and that call invokes `cb` once with the parsed event; the id
derived from the parsed event is the id of the subscription, and `cb` is what the
table holds under it. -/
theorem Post_invokes_the_callback {Cb P : Type}
    (deriveId : String → String → String → String) (parse : String → Option (BusEvent P))
    (ToJsValue : BusEvent P → String) (RuntimeId : String) (callbacks : String → Option Cb)
    (source tpe target : String) (cb : Cb) (e : BusEvent P)
    (hparse : parse (ToJsValue e) = some e) (hs : e.Source = source) (ht : e.Event = tpe) :
    RuntimeSub.Post ToJsValue
        (events.subscribe deriveId RuntimeId callbacks source tpe target cb).2 e =
      ("events", "post", [deriveId RuntimeId source tpe, ToJsValue e]) ∧
    events.post parse (events.subscribe deriveId RuntimeId callbacks source tpe target cb).1
        (RuntimeSub.Post ToJsValue
          (events.subscribe deriveId RuntimeId callbacks source tpe target cb).2 e).2.2 =
      PostResult.invoked cb e ∧
    deriveId RuntimeId e.Source e.Event =
      (events.subscribe deriveId RuntimeId callbacks source tpe target cb).2.id ∧
    (events.subscribe deriveId RuntimeId callbacks source tpe target cb).1
      (deriveId RuntimeId e.Source e.Event) = some cb := by
  subst hs ht
  refine ⟨rfl, ?_, rfl, ?_⟩
  · simp [events.post, events.subscribe, RuntimeSub.Post, newRuntimeSub, hparse]
  · simp [events.subscribe]

/-- C17, witness: the runtime `"rt"`, a subscription to source `"monk"` and type
`"newBlock"` with the callback 7, ids made by joining with `/`, and an event written
as its source and type joined with a space. -/
theorem Post_invokes_the_callback_witness :
    RuntimeSub.Post (fun e : BusEvent Unit => e.Source ++ " " ++ e.Event)
        (events.subscribe (fun r s t => r ++ "/" ++ s ++ "/" ++ t) "rt" (fun _ => none)
          "monk" "newBlock" "ws" (7 : Nat)).2 ⟨"monk", "newBlock", ()⟩ =
      ("events", "post", ["rt/monk/newBlock", "monk newBlock"]) ∧
    events.post
        (fun s => if s = "monk newBlock" then some ⟨"monk", "newBlock", ()⟩ else none)
        (events.subscribe (fun r s t => r ++ "/" ++ s ++ "/" ++ t) "rt" (fun _ => none)
          "monk" "newBlock" "ws" (7 : Nat)).1
        (RuntimeSub.Post (fun e : BusEvent Unit => e.Source ++ " " ++ e.Event)
          (events.subscribe (fun r s t => r ++ "/" ++ s ++ "/" ++ t) "rt" (fun _ => none)
            "monk" "newBlock" "ws" (7 : Nat)).2 ⟨"monk", "newBlock", ()⟩).2.2 =
      PostResult.invoked 7 ⟨"monk", "newBlock", ()⟩ :=
  have h := Post_invokes_the_callback (fun r s t => r ++ "/" ++ s ++ "/" ++ t)
    (fun s => if s = "monk newBlock" then some ⟨"monk", "newBlock", ()⟩ else none)
    (fun e : BusEvent Unit => e.Source ++ " " ++ e.Event) "rt" (fun _ => none)
    "monk" "newBlock" "ws" (7 : Nat) ⟨"monk", "newBlock", ()⟩ (by simp) rfl rfl
  ⟨h.1, h.2.1⟩

end Runtimemanager

namespace Ate

/-- C18.  Whenever `Add`, `Sub`, `Mul`, `Div`, `Mod` or `Exp` returns a string `r`,
both arguments were strings and `IsZero(r)` is true exactly when the integer the
helper computed from them is zero: a zero result is the string `"0x"`, a non-zero
result is `0x` followed by an even, positive number of digits whose first byte is
not zero, hence none of `"0"`, `"0x"`, `"0x0"`. -/
theorem zero_result_iff_IsZero :
    ∀ fg ∈ [(Add, fun x y : Int => x + y), (Sub, fun x y : Int => x - y),
        (Mul, fun x y : Int => x * y), (Div, Int.ediv), (Mod, Int.emod), (Exp, bigExp)],
      ∀ (arg0 arg1 : Option String) (r : String),
        fg.1 arg0 arg1 = Outcome.ret (Value.string r) →
        ∃ a b, arg0 = some a ∧ arg1 = some b ∧
          (IsZero (some r) = Outcome.ret (Value.boolean true) ↔ fg.2 (atob a) (atob b) = 0) ∧
          (fg.2 (atob a) (atob b) = 0 → r = "0x") ∧
          (fg.2 (atob a) (atob b) ≠ 0 →
            ∃ ds, r.toList = '0' :: 'x' :: ds ∧ 0 < ds.length ∧ ds.length % 2 = 0 ∧
              ¬ (['0', '0'] <+: ds) ∧ r ≠ "0" ∧ r ≠ "0x" ∧ r ≠ "0x0") := by
  intro fg hfg arg0 arg1 r h
  obtain ⟨a, b, h0, h1, hr⟩ := helper_string fg hfg arg0 arg1 r h
  obtain ⟨r', hr', hz, hx, hs⟩ := hexValueOf_shape (fg.2 (atob a) (atob b))
  rw [hr'] at hr
  have : r = r' := by simpa using hr
  subst this
  exact ⟨a, b, h0, h1, hz, hx, hs⟩

/-- C18, witness: `Sub("5","5")` returns `"0x"`. -/
theorem zero_result_iff_IsZero_witness :
    ∃ a b, some "5" = some a ∧ some "5" = some b ∧
      (IsZero (some "0x") = Outcome.ret (Value.boolean true) ↔ atob a - atob b = 0) ∧
      (atob a - atob b = 0 → "0x" = "0x") ∧
      (atob a - atob b ≠ 0 →
        ∃ ds, "0x".toList = '0' :: 'x' :: ds ∧ 0 < ds.length ∧ ds.length % 2 = 0 ∧
          ¬ (['0', '0'] <+: ds) ∧ "0x" ≠ "0" ∧ "0x" ≠ "0x" ∧ "0x" ≠ "0x0") :=
  zero_result_iff_IsZero (Sub, fun x y : Int => x - y) (by simp) (some "5") (some "5") "0x"
    (by decide)

/-- C19, as amended.  For non-negative `x` and positive `y` written as 0x-prefixed
hex strings or as decimal strings without a leading zero `a` and `b`, `Div(a,b)` and
`Mod(a,b)` return the canonical encodings of numbers `q` and `r` with
`x = q*y + r` and `0 <= r < y`. -/
theorem div_mod_euclid (a b : String) (x y : Nat) (ha : DenotesPlain a x)
    (hb : DenotesPlain b y) (hy : 0 < y) :
    ∃ sq sr q r, Div (some a) (some b) = Outcome.ret (Value.string sq) ∧
      Mod (some a) (some b) = Outcome.ret (Value.string sr) ∧
      IsCanonicalEncoding sq q ∧ IsCanonicalEncoding sr r ∧ x = q * y + r ∧ r < y := by
  have hxa := atob_of_denotesPlain a x ha
  have hyb := atob_of_denotesPlain b y hb
  have hy0 : (y : Int) ≠ 0 := by omega
  have hq : Int.ediv (x : Int) (y : Int) = ((x / y : Nat) : Int) := (Int.ofNat_ediv x y).symm
  have hr : Int.emod (x : Int) (y : Int) = ((x % y : Nat) : Int) := (Int.ofNat_emod x y).symm
  refine ⟨_, _, x / y, x % y, ?_, ?_, canonical_natBytes (x / y), canonical_natBytes (x % y),
    ?_, Nat.mod_lt x hy⟩
  · simp only [Div, parseBin, hxa, hyb, isZero, BZERO, hy0, decide_False, Bool.false_eq_true,
      if_false, bigDiv, hq, hexValueOf_natCast]
  · simp only [Mod, parseBin, hxa, hyb, isZero, BZERO, hy0, decide_False, Bool.false_eq_true,
      if_false, bigMod, hr, hexValueOf_natCast]
  · have := Nat.div_add_mod x y
    rw [Nat.mul_comm] at this
    exact this.symm

/-- C19, witness: 1000 as `"1000"` divided by 7 as `"0x07"`. -/
theorem div_mod_euclid_witness :
    ∃ sq sr q r, Div (some "1000") (some "0x07") = Outcome.ret (Value.string sq) ∧
      Mod (some "1000") (some "0x07") = Outcome.ret (Value.string sr) ∧
      IsCanonicalEncoding sq q ∧ IsCanonicalEncoding sr r ∧ 1000 = q * 7 + r ∧ r < 7 :=
  div_mod_euclid "1000" "0x07" 1000 7 (Or.inl ⟨by decide, by decide⟩)
    (Or.inr ⟨['0', '7'], by decide, by decide, by decide⟩) (by decide)

/-- C19, counterexample.  `"010"` is a valid decimal string denoting 10 and `"3"` one
denoting 3, yet `Div("010","3")` and `Mod("010","3")` both return the encoding of 2,
and `10 = 2*3 + 2` does not hold: the quotient and remainder are those of 8. -/
theorem div_mod_leading_zero :
    Denotes "010" 10 ∧ Denotes "3" 3 ∧
    Div (some "010") (some "3") = Outcome.ret (Value.string "0x02") ∧
    Mod (some "010") (some "3") = Outcome.ret (Value.string "0x02") ∧
    IsCanonicalEncoding "0x02" 2 ∧
    ¬ ∃ q r, IsCanonicalEncoding "0x02" q ∧ IsCanonicalEncoding "0x02" r ∧ 10 = q * 3 + r := by
  have h2 : IsCanonicalEncoding "0x02" 2 := canonical_natBytes 2
  refine ⟨Or.inl (by decide), Or.inl (by decide), by decide, by decide, h2, ?_⟩
  rintro ⟨q, r, hq, hr, h⟩
  have e1 := canonical_value_unique _ _ _ hq h2
  have e2 := canonical_value_unique _ _ _ hr h2
  omega

/-- C20.  For every string `s` of `n` bytes, `StringToHex(s)` is `"0x" + h` for a
string `h`; `HexToString` of the whole is the undefined value; `HexToString(h)` is
the string whose bytes are `32 - n` zero bytes (none when `n >= 32`) followed by the
bytes of `s`, which is `s` itself when `n >= 32`. -/
theorem HexToString_of_StringToHex (s : String) :
    ∃ h, StringToHex (some s) = Outcome.ret (Value.string ("0x" ++ h)) ∧
      HexToString (some ("0x" ++ h)) = Outcome.ret Value.undefined ∧
      ∃ t, HexToString (some h) = Outcome.ret (Value.string t) ∧
        goBytes t = List.replicate (32 - (goBytes s).length) 0 ++ goBytes s ∧
        (32 ≤ (goBytes s).length → t = s) := by
  have hlt := goBytes_lt s
  have hpad : ∀ v ∈ List.replicate (32 - (goBytes s).length) 0 ++ goBytes s, v < 256 := by
    intro v hv
    rw [List.mem_append] at hv
    rcases hv with hv | hv
    · rw [List.eq_of_mem_replicate hv]; omega
    · exact hlt v hv
  have hst : StringToHex (some s) = Outcome.ret (Value.string ("0x" ++
      EncodeToString (List.replicate (32 - (goBytes s).length) 0 ++ goBytes s))) := by
    by_cases hn : 32 > (goBytes s).length
    · simp only [StringToHex, hn, if_true]
    · have h0 : 32 - (goBytes s).length = 0 := by omega
      simp only [StringToHex, hn, if_false, h0, List.replicate_zero, List.nil_append]
  have hb : goBytes (String.mk (List.replicate (32 - (goBytes s).length) (Char.ofNat 0) ++
      s.toList)) = List.replicate (32 - (goBytes s).length) 0 ++ goBytes s := by
    unfold goBytes
    show (List.replicate (32 - (goBytes s).length) (Char.ofNat 0) ++ s.toList).flatMap utf8Bytes = _
    rw [List.flatMap_append, flatMap_replicate_nul]
    rfl
  refine ⟨_, hst, ?_, String.mk (List.replicate (32 - (goBytes s).length) (Char.ofNat 0) ++
    s.toList), ?_, hb, ?_⟩
  · simp only [HexToString, DecodeString_0x]
  · simp only [HexToString, DecodeString_EncodeToString _ hpad]
    rw [← hb, goString_goBytes]
  · intro hn
    have h0 : 32 - (goBytes s).length = 0 := by omega
    rw [h0]
    rfl

end Ate
